import Mathlib

/-!
Verification of the cascading-precision power-method core.

This file is a shallow embedding over the reals of the computational core of
the repository: `study.simulate_fp8` (the low-precision emulator) and
`cascading.CascadingPowerMethod` (the per-tier power iteration segment, its
dual convergence / stagnation policy, and the cascade controller assembling
the trace document).  Machine floats are idealised as real numbers; wall-clock
durations, which never influence control flow beyond a division-by-zero guard,
are supplied by an explicit duration oracle.  The theorems at the end check
the specification's claims against this embedding.
-/

open scoped Classical

noncomputable section

/-- Real vectors as lists (numpy 1-d arrays). -/
abbrev Vec := List ℝ

/-- Real matrices as lists of rows (numpy 2-d arrays). -/
abbrev Mat := List Vec

/-- Dot product of two vectors (`np.dot`). -/
def dot (u v : Vec) : ℝ := (List.zipWith (fun a b => a * b) u v).sum

/-- Matrix-vector product (`A @ x`). -/
def matvec (A : Mat) (x : Vec) : Vec := A.map (fun row => dot row x)

/-- Scalar multiple of a vector (`c * v`, also `v / n` as `(1/n) * v`). -/
def smulVec (c : ℝ) (v : Vec) : Vec := v.map (fun a => c * a)

/-- Componentwise difference of two vectors. -/
def subVec (u v : Vec) : Vec := List.zipWith (fun a b => a - b) u v

/-- Euclidean norm (`np.linalg.norm`). -/
def norm2 (v : Vec) : ℝ := Real.sqrt (dot v v)

/-- Rounding to the nearest integer with ties to even (`np.round`). -/
def npRound (x : ℝ) : ℤ :=
  if x - ⌊x⌋ < 1/2 then ⌊x⌋
  else if 1/2 < x - ⌊x⌋ then ⌊x⌋ + 1
  else if Even ⌊x⌋ then ⌊x⌋ else ⌊x⌋ + 1

/-- Sign function (`np.sign`): -1, 0 or 1. -/
def npSign (x : ℝ) : ℝ := if x < 0 then -1 else if x = 0 then 0 else 1

/-- Scalar kernel of `study.simulate_fp8`: take the absolute value, zero it
out unless it exceeds `1e-10` (the source's `mask = abs_x > 1e-10`), quantize
the rest to the nearest multiple of `1/8` via `np.round(abs_x * 8) / 8`, and
reapply the original sign. -/
def fp8Scalar (x : ℝ) : ℝ :=
  let s := npSign x
  let a := |x|
  let q := if 1/10^10 < a then (npRound (a * 8) : ℝ) / 8 else 0
  s * q

/-- `study.simulate_fp8` on a vector (elementwise quantization). -/
def simulate_fp8 (x : Vec) : Vec := x.map fp8Scalar

/-- `study.simulate_fp8` applied to a matrix (numpy broadcasts elementwise). -/
def simulateFp8Mat (A : Mat) : Mat := A.map simulate_fp8

/-- Numeric formats appearing in `PRECISION_CASCADE` (`np.float16/32/64`).
In the real-number idealisation a format cast is the identity, but the
format still determines the per-element byte counts. -/
inductive Dtype
  | float16
  | float32
  | float64
deriving DecidableEq, Repr

/-- One entry of `CascadingPowerMethod.PRECISION_CASCADE`. -/
structure CascadeEntry where
  name : String
  dtype : Dtype
  simulate_fp8 : Bool
  threshold : ℝ
  max_stagnant : ℕ

/-- The fixed precision cascade FP8 -> FP16 -> FP32 -> FP64. -/
def PRECISION_CASCADE : List CascadeEntry :=
  [ { name := "FP8", dtype := Dtype.float32, simulate_fp8 := true,
      threshold := 5/100, max_stagnant := 10 },
    { name := "FP16", dtype := Dtype.float16, simulate_fp8 := false,
      threshold := 1/10^3, max_stagnant := 20 },
    { name := "FP32", dtype := Dtype.float32, simulate_fp8 := false,
      threshold := 1/10^7, max_stagnant := 50 },
    { name := "FP64", dtype := Dtype.float64, simulate_fp8 := false,
      threshold := 1/10^15, max_stagnant := 100 } ]

/-- Convergence tolerances of one precision tier. -/
structure TolConfig where
  eigenvalue_tol : ℝ
  residual_tol : ℝ

/-- `CascadingPowerMethod.PRECISION_TOLERANCES`, keyed by tier name.  The
source raises a `KeyError` for names outside the table; those are unreachable
from the cascade, and the final else-branch is arbitrary. -/
def PRECISION_TOLERANCES (name : String) : TolConfig :=
  if name = "FP8" then { eigenvalue_tol := 5/100, residual_tol := 1/10 }
  else if name = "FP16" then { eigenvalue_tol := 1/10^3, residual_tol := 1/10^2 }
  else if name = "FP32" then { eigenvalue_tol := 1/10^6, residual_tol := 1/10^5 }
  else { eigenvalue_tol := 1/10^12, residual_tol := 1/10^11 }

/-- `CascadingPowerMethod._get_dtype_bytes`: 1 byte for the emulated FP8
tier, otherwise the native width of the format. -/
def get_dtype_bytes (dtype : Dtype) (simFp8 : Bool) : ℕ :=
  if simFp8 then 1
  else match dtype with
    | Dtype.float64 => 8
    | Dtype.float32 => 4
    | Dtype.float16 => 2

/-- `CascadingPowerMethod._check_convergence`: the dual convergence test.
Returns the pair (is_converged, residual_norm). -/
def check_convergence (A : Mat) (x : Vec) (eigenvalue eigenvalue_old : ℝ)
    (precision_name : String) : Prop × ℝ :=
  let tol := PRECISION_TOLERANCES precision_name
  let rel_change :=
    if 1/10^14 < |eigenvalue_old| then
      |eigenvalue - eigenvalue_old| / |eigenvalue_old|
    else |eigenvalue - eigenvalue_old|
  let residual_norm := norm2 (subVec (matvec A x) (smulVec eigenvalue x))
  (rel_change < tol.eigenvalue_tol ∧ residual_norm < tol.residual_tol,
    residual_norm)

/-- Lines 326-336 of `cascading.py`: on the first iteration of a segment the
convergence check is skipped (not converged) but the residual norm is still
computed; afterwards `_check_convergence` decides.  Returns the pair
(is_converged, residual_norm). -/
def convRes (A_compute : Mat) (x_new : Vec) (eigenvalue eigenvalue_old : ℝ)
    (iteration : ℕ) (precision_name : String) : Prop × ℝ :=
  if iteration = 0 then
    (False, norm2 (subVec (matvec A_compute x_new) (smulVec eigenvalue x_new)))
  else check_convergence A_compute x_new eigenvalue eigenvalue_old precision_name

/-- One record of the instrumentation trace (`trace.append({...})` in
`_run_precision_segment`). -/
structure IterationRecord where
  iteration : ℕ
  precision : String
  wall_time : ℝ
  cumulative_time : ℝ
  eigenvalue : ℝ
  relative_error : ℝ
  residual_norm : ℝ
  vector_norm : ℝ
  theoretical_flops : ℝ
  theoretical_bandwidth_gbps : ℝ
  ops_count : ℕ
  bytes_transferred : ℕ

instance : Inhabited IterationRecord :=
  ⟨{ iteration := 0, precision := "", wall_time := 0, cumulative_time := 0,
     eigenvalue := 0, relative_error := 0, residual_norm := 0, vector_norm := 0,
     theoretical_flops := 0, theoretical_bandwidth_gbps := 0, ops_count := 0,
     bytes_transferred := 0 }⟩

/-- Parameters of one call to `_run_precision_segment`: the matrix already
cast to the tier's format, the tier configuration and the run-level data.
The `dts` field is the duration oracle delivering the (observational)
wall-clock duration of each iteration of this segment. -/
structure SegParams where
  A : Mat
  n : ℕ
  precision_name : String
  simulate_fp8 : Bool
  dtype_bytes : ℕ
  threshold : ℝ
  target_error : ℝ
  max_stagnant : ℕ
  trueEig : ℝ
  dts : ℕ → ℝ

/-- Mutable state of the loop in `_run_precision_segment`.  The field
`last_error` holds the previous iteration's residual norm; its initial value
(`float('inf')` in the source) is never read before being overwritten, since
the stagnation bookkeeping only reads it when `iteration > 0`. -/
structure SegState where
  x : Vec
  trace : List IterationRecord
  converged : Bool
  stagnant_count : ℕ
  last_error : ℝ
  eigenvalue_old : ℝ
  cumulative_time_offset : ℝ
  iteration : ℕ

/-- `A_compute`: the matrix actually multiplied, quantized in the FP8 tier. -/
def acompute (p : SegParams) : Mat :=
  if p.simulate_fp8 then simulateFp8Mat p.A else p.A

/-- `x_compute`: the vector actually multiplied, quantized in the FP8 tier. -/
def xcompute (p : SegParams) (x : Vec) : Vec :=
  if p.simulate_fp8 then simulate_fp8 x else x

/-- The raw power-iteration product `x_new = A_compute @ x_compute`,
re-quantized in the FP8 tier. -/
def xnewRaw (p : SegParams) (x : Vec) : Vec :=
  let v := matvec (acompute p) (xcompute p x)
  if p.simulate_fp8 then simulate_fp8 v else v

/-- The 2-norm of the raw product (`norm = np.linalg.norm(x_new)`). -/
def iterNorm (p : SegParams) (x : Vec) : ℝ := norm2 (xnewRaw p x)

/-- The normalized iterate `x_new = x_new / norm`. -/
def xnewNormed (p : SegParams) (x : Vec) : Vec :=
  smulVec (1 / iterNorm p x) (xnewRaw p x)

/-- The Rayleigh-quotient eigenvalue estimate
`eigenvalue = np.dot(x_new, A_compute @ x_new)`. -/
def iterEigenvalue (p : SegParams) (x : Vec) : ℝ :=
  dot (xnewNormed p x) (matvec (acompute p) (xnewNormed p x))

/-- The relative error against the externally supplied true eigenvalue. -/
def iterRelErr (p : SegParams) (x : Vec) : ℝ :=
  |iterEigenvalue p x - p.trueEig| / |p.trueEig|

/-- The `is_converged` flag of one iteration (first component of
`convRes` at the current state). -/
def iterConv (p : SegParams) (s : SegState) : Prop :=
  (convRes (acompute p) (xnewNormed p s.x) (iterEigenvalue p s.x)
    s.eigenvalue_old s.iteration p.precision_name).1

/-- The `residual_norm` of one iteration (second component of `convRes`
at the current state). -/
def iterResidual (p : SegParams) (s : SegState) : ℝ :=
  (convRes (acompute p) (xnewNormed p s.x) (iterEigenvalue p s.x)
    s.eigenvalue_old s.iteration p.precision_name).2

/-- The IterationRecord appended by one completed iteration. -/
def iterRecord (p : SegParams) (s : SegState) : IterationRecord :=
  let dt := p.dts s.iteration
  { iteration := s.iteration
    precision := p.precision_name
    wall_time := dt
    cumulative_time := s.cumulative_time_offset + dt
    eigenvalue := iterEigenvalue p s.x
    relative_error := iterRelErr p s.x
    residual_norm := iterResidual p s
    vector_norm := iterNorm p s.x
    theoretical_flops :=
      if 0 < dt then (2 * p.n * p.n + p.n : ℝ) / dt else 0
    theoretical_bandwidth_gbps :=
      if 0 < dt then ((p.n * p.n + 2 * p.n) * p.dtype_bytes : ℝ) / dt / 10^9
      else 0
    ops_count := 2 * p.n * p.n + p.n
    bytes_transferred := (p.n * p.n + 2 * p.n) * p.dtype_bytes }

/-- Lines 378-387 of `cascading.py`: from the second iteration of a segment
onward, the stagnation counter is incremented when the residual improvement
`last_error - residual_norm` has magnitude below `1e-10` and reset to zero
otherwise; on the first iteration it is left untouched. -/
def stagnantUpdate (p : SegParams) (s : SegState) : ℕ :=
  if 0 < s.iteration then
    (if |s.last_error - iterResidual p s| < 1/10^10 then s.stagnant_count + 1
     else 0)
  else s.stagnant_count

/-- The loop state after one completed iteration (record appended, vector
replaced by the normalized iterate, bookkeeping advanced). -/
def postIterState (p : SegParams) (s : SegState) : SegState :=
  { x := xnewNormed p s.x
    trace := s.trace ++ [iterRecord p s]
    converged := s.converged
    stagnant_count := stagnantUpdate p s
    last_error := iterResidual p s
    eigenvalue_old := iterEigenvalue p s.x
    cumulative_time_offset := s.cumulative_time_offset + p.dts s.iteration
    iteration := s.iteration + 1 }

/-- One pass of the loop body of `_run_precision_segment`.  The boolean
result is true when the loop breaks after this pass: on a near-null product
(before appending a record), and after appending on precision-aware
convergence, on reaching the global target error, or on stagnation - checked
in exactly this order. -/
def segmentStep (p : SegParams) (s : SegState) : SegState × Bool :=
  if iterNorm p s.x < 1/10^10 then (s, true)
  else if iterConv p s then ({ postIterState p s with converged := true }, true)
  else if iterRelErr p s.x ≤ p.target_error then
    ({ postIterState p s with converged := true }, true)
  else if p.max_stagnant ≤ stagnantUpdate p s then
    ({ postIterState p s with converged := false }, true)
  else (postIterState p s, false)

/-- The `for iteration in range(max_iter)` loop of `_run_precision_segment`,
with the remaining iteration budget as fuel. -/
def runSegment (p : SegParams) : ℕ → SegState → SegState
  | 0, s => s
  | m + 1, s =>
      let r := segmentStep p s
      if r.2 then r.1 else runSegment p m r.1

/-- The fresh loop state at the start of a segment: empty trace,
converged = False, stagnation counter zero, local iteration index zero. -/
def initSeg (x : Vec) (timeOffset : ℝ) : SegState :=
  { x := x, trace := [], converged := false, stagnant_count := 0,
    last_error := 0, eigenvalue_old := 0,
    cumulative_time_offset := timeOffset, iteration := 0 }

/-- The object state of `CascadingPowerMethod`.  The matrix and its true
dominant eigenvalue are produced in `__init__` by the external generator
(`create_test_matrix` / `np.linalg.eigvalsh`) and are modelled as data. -/
structure CascadingPowerMethod where
  matrix_size : ℕ
  condition_number : ℝ
  matrix : Mat
  true_eigenvalue : ℝ

/-- One sealed `PrecisionSegment` of the trace document. -/
structure SegmentInfo where
  precision : String
  dtype_bytes : ℕ
  iterations : ℕ
  start_iteration : ℕ
  end_iteration : ℕ
  start_error : ℝ
  end_error : ℝ
  time : ℝ
  converged : Bool

/-- Metadata block of the trace document.  The wall-clock `timestamp` field
is external output and is omitted; `final_error` is `nan` in the source when
the trace is empty, which the `converged` flag reflects through its
nonemptiness conjunct (a float comparison against nan is false). -/
structure RunMetadata where
  algorithm : String
  condition_number : ℝ
  matrix_size : ℕ
  true_eigenvalue : ℝ
  target_error : ℝ
  final_error : ℝ
  converged : Prop
  max_iterations : ℕ

/-- Summary block of the trace document. -/
structure RunSummary where
  total_iterations : ℕ
  total_time_seconds : ℝ
  precision_levels_used : ℕ
  average_time_per_iteration : ℝ

/-- The complete trace document returned by `CascadingPowerMethod.run`. -/
structure TraceDocument where
  metadata : RunMetadata
  precision_segments : List SegmentInfo
  trace : List IterationRecord
  summary : RunSummary

/-- Accumulator of the tier loop in `run`. -/
structure LoopAcc where
  full_trace : List IterationRecord
  precision_segments : List SegmentInfo
  total_iterations : ℕ
  x : Vec
  time_offset : ℝ

/-- The segment parameters built at the top of each pass of the tier loop of
`run`: matrix cast to the tier's format (the identity here), tier data, byte
width from `_get_dtype_bytes`, and the duration oracle shifted past the
iterations already spent. -/
def segParamsOf (M : CascadingPowerMethod) (target_error : ℝ) (dts : ℕ → ℝ)
    (e : CascadeEntry) (total : ℕ) : SegParams :=
  { A := M.matrix, n := M.matrix_size, precision_name := e.name,
    simulate_fp8 := e.simulate_fp8,
    dtype_bytes := get_dtype_bytes e.dtype e.simulate_fp8,
    threshold := e.threshold, target_error := target_error,
    max_stagnant := e.max_stagnant, trueEig := M.true_eigenvalue,
    dts := fun k => dts (total + k) }

/-- The PrecisionSegment sealed after a nonempty segment. -/
def segInfoOf (e : CascadeEntry) (p : SegParams) (total : ℕ)
    (fin : SegState) : SegmentInfo :=
  { precision := e.name
    dtype_bytes := p.dtype_bytes
    iterations := fin.trace.length
    start_iteration := total
    end_iteration := total + fin.trace.length
    start_error := (fin.trace.head!).relative_error
    end_error := (fin.trace.getLast!).relative_error
    time := (fin.trace.getLast!).cumulative_time -
      (fin.trace.head!).cumulative_time
    converged := fin.converged }

/-- Appending a finished segment to the loop accumulator. -/
def accAppend (acc : LoopAcc) (seg : SegmentInfo) (fin : SegState) : LoopAcc :=
  { full_trace := acc.full_trace ++ fin.trace
    precision_segments := acc.precision_segments ++ [seg]
    total_iterations := acc.total_iterations + fin.trace.length
    x := fin.x
    time_offset := fin.cumulative_time_offset }

/-- The `while current_precision_idx < len(...) and total_iterations <
max_iter` loop of `run`, recursing over the remaining cascade entries.  Each
pass casts matrix and vector to the tier's format (the identity here), runs
a segment on the remaining budget, stops if the segment produced no records,
otherwise seals a PrecisionSegment, and stops when the segment converged at
the target error. -/
def runLoop (M : CascadingPowerMethod) (target_error : ℝ) (max_iter : ℕ)
    (dts : ℕ → ℝ) : List CascadeEntry → LoopAcc → LoopAcc
  | [], acc => acc
  | e :: rest, acc =>
      if max_iter ≤ acc.total_iterations then acc
      else
        let p := segParamsOf M target_error dts e acc.total_iterations
        let fin := runSegment p (max_iter - acc.total_iterations)
          (initSeg acc.x acc.time_offset)
        if fin.trace.isEmpty then acc
        else
          let acc' := accAppend acc (segInfoOf e p acc.total_iterations fin) fin
          if fin.converged ∧ (fin.trace.getLast!).relative_error ≤ target_error
          then acc'
          else runLoop M target_error max_iter dts rest acc'

/-- `CascadingPowerMethod.run` over an arbitrary cascade table; the initial
vector is a run input (`np.random.randn` is external nondeterminism) and is
normalized exactly as in the source. -/
def runWith (cascade : List CascadeEntry) (M : CascadingPowerMethod)
    (x0 : Vec) (target_error : ℝ) (max_iter : ℕ) (dts : ℕ → ℝ) :
    TraceDocument :=
  let x := smulVec (1 / norm2 x0) x0
  let r := runLoop M target_error max_iter dts cascade
    { full_trace := [], precision_segments := [], total_iterations := 0,
      x := x, time_offset := 0 }
  let final_error := (r.full_trace.getLast!).relative_error
  { metadata :=
      { algorithm := "cascading_precision"
        condition_number := M.condition_number
        matrix_size := M.matrix_size
        true_eigenvalue := M.true_eigenvalue
        target_error := target_error
        final_error := final_error
        converged := r.full_trace ≠ [] ∧ final_error ≤ target_error
        max_iterations := max_iter }
    precision_segments := r.precision_segments
    trace := r.full_trace
    summary :=
      { total_iterations := r.total_iterations
        total_time_seconds := r.time_offset
        precision_levels_used := r.precision_segments.length
        average_time_per_iteration :=
          if 0 < r.total_iterations then r.time_offset / r.total_iterations
          else 0 } }

/-- `CascadingPowerMethod.run` with the fixed `PRECISION_CASCADE`. -/
def CascadingPowerMethod.run (M : CascadingPowerMethod) (x0 : Vec)
    (target_error : ℝ) (max_iter : ℕ) (dts : ℕ → ℝ) : TraceDocument :=
  runWith PRECISION_CASCADE M x0 target_error max_iter dts

/-- Concrete one-dimensional FP8-tier parameters (matrix `[[1]]`, true
eigenvalue 1, loose target) used by witnesses. -/
def pMini : SegParams :=
  { A := [[1]], n := 1, precision_name := "FP8", simulate_fp8 := true,
    dtype_bytes := 1, threshold := 5/100, target_error := 1,
    max_stagnant := 10, trueEig := 1, dts := fun _ => 0 }

/-- Concrete one-dimensional parameters with the zero matrix (near-null
product) used by witnesses. -/
def pZero : SegParams :=
  { A := [[0]], n := 1, precision_name := "FP8", simulate_fp8 := true,
    dtype_bytes := 1, threshold := 5/100, target_error := 1/10^10,
    max_stagnant := 10, trueEig := 1, dts := fun _ => 0 }

/-- A concrete loop state in the middle of a segment (local iteration 1)
used by witnesses. -/
def sOne : SegState :=
  { x := [1], trace := [], converged := false, stagnant_count := 0,
    last_error := 0, eigenvalue_old := 1, cumulative_time_offset := 0,
    iteration := 1 }

/-- A concrete one-dimensional cascading method object (matrix `[[1]]`,
dominant eigenvalue 1) used by witnesses. -/
def MMini : CascadingPowerMethod :=
  { matrix_size := 1, condition_number := 1, matrix := [[1]],
    true_eigenvalue := 1 }

/-- A concrete symmetric positive-definite 2x2 matrix whose FP8 quantization
is `[[39/4, 1/2], [1/2, 9]]`; its dominant eigenvalue is exactly `997/100`. -/
def ABump : Mat := [[243/25, 1/2], [1/2, 897/100]]

/-- The cascading method object for `ABump` (true eigenvalue `997/100`,
condition number `997/872`). -/
def MBump : CascadingPowerMethod :=
  { matrix_size := 2, condition_number := 997/872, matrix := ABump,
    true_eigenvalue := 997/100 }

/-- The FP8-tier segment parameters arising in a run of `MBump` with target
error `1e-10`. -/
def pBump : SegParams :=
  { A := ABump, n := 2, precision_name := "FP8", simulate_fp8 := true,
    dtype_bytes := 1, threshold := 5/100, target_error := 1/10^10,
    max_stagnant := 10, trueEig := 997/100, dts := fun _ => 0 }

/-- The initial state of the FP8 segment of the `MBump` run started from the
normalized vector `[3, 1] / sqrt 10`. -/
def sBump0 : SegState := initSeg [3 / Real.sqrt 10, 1 / Real.sqrt 10] 0

/-- The state after the first iteration of that segment. -/
def sBump1 : SegState := postIterState pBump sBump0

/-- Two cascade entries that agree on everything except possibly the
escalation threshold. -/
def entryMatch (e₁ e₂ : CascadeEntry) : Prop :=
  e₁.name = e₂.name ∧ e₁.dtype = e₂.dtype ∧
    e₁.simulate_fp8 = e₂.simulate_fp8 ∧ e₁.max_stagnant = e₂.max_stagnant

/-- The standard cascade with all escalation thresholds replaced by other
values (used by the C10 witness). -/
def PRECISION_CASCADE_ALT : List CascadeEntry :=
  [ { name := "FP8", dtype := Dtype.float32, simulate_fp8 := true,
      threshold := 1/2, max_stagnant := 10 },
    { name := "FP16", dtype := Dtype.float16, simulate_fp8 := false,
      threshold := 1, max_stagnant := 20 },
    { name := "FP32", dtype := Dtype.float32, simulate_fp8 := false,
      threshold := 2, max_stagnant := 50 },
    { name := "FP64", dtype := Dtype.float64, simulate_fp8 := false,
      threshold := 3, max_stagnant := 100 } ]

end

section Theorems

/-- Evaluation of `npRound` when the fractional part is below one half. -/
theorem npRound_eq_of_lt_half {x : ℝ} (n : ℤ) (h0 : (n : ℝ) ≤ x)
    (h1 : x < (n : ℝ) + 1/2) : npRound x = n := by
  have hfloor : ⌊x⌋ = n := by
    rw [Int.floor_eq_iff]
    exact ⟨h0, by linarith⟩
  unfold npRound
  rw [hfloor, if_pos (by linarith)]

/-- Evaluation of `npRound` when the fractional part is above one half. -/
theorem npRound_eq_of_half_lt {x : ℝ} (n : ℤ) (h0 : (n : ℝ) + 1/2 < x)
    (h1 : x < (n : ℝ) + 1) : npRound x = n + 1 := by
  have hfloor : ⌊x⌋ = n := by
    rw [Int.floor_eq_iff]
    exact ⟨by linarith, by linarith⟩
  unfold npRound
  rw [hfloor, if_neg (by linarith), if_pos (by linarith)]

/-- Evaluation of `npRound` at an exact half with even integer part. -/
theorem npRound_half_even {x : ℝ} (n : ℤ) (heq : x = (n : ℝ) + 1/2)
    (he : Even n) : npRound x = n := by
  have hfloor : ⌊x⌋ = n := by
    rw [Int.floor_eq_iff]
    exact ⟨by linarith, by linarith⟩
  unfold npRound
  rw [hfloor, if_neg (by linarith), if_neg (by linarith),
    if_pos he]

/-- Evaluation of `npRound` at an exact half with odd integer part. -/
theorem npRound_half_odd {x : ℝ} (n : ℤ) (heq : x = (n : ℝ) + 1/2)
    (he : ¬ Even n) : npRound x = n + 1 := by
  have hfloor : ⌊x⌋ = n := by
    rw [Int.floor_eq_iff]
    exact ⟨by linarith, by linarith⟩
  unfold npRound
  rw [hfloor, if_neg (by linarith), if_neg (by linarith),
    if_neg he]

/-- Quantizing an integer leaves it unchanged. -/
theorem npRound_intCast (n : ℤ) : npRound (n : ℝ) = n :=
  npRound_eq_of_lt_half n le_rfl (by norm_num)

/-- `npRound` of a nonnegative real is nonnegative. -/
theorem npRound_nonneg {x : ℝ} (hx : 0 ≤ x) : 0 ≤ npRound x := by
  have h := Int.floor_nonneg.mpr hx
  unfold npRound
  split_ifs <;> omega

/-- Sign of a positive real. -/
theorem npSign_pos {x : ℝ} (hx : 0 < x) : npSign x = 1 := by
  unfold npSign
  rw [if_neg (not_lt.mpr hx.le), if_neg (ne_of_gt hx)]

/-- Sign of a negative real. -/
theorem npSign_neg {x : ℝ} (hx : x < 0) : npSign x = -1 := by
  unfold npSign
  rw [if_pos hx]

/-- The emulator maps zero to zero. -/
theorem fp8Scalar_zero : fp8Scalar 0 = 0 := by
  simp [fp8Scalar, npSign]

/-- The emulator fixes positive multiples of `1/8`. -/
theorem fp8Scalar_intDiv8 {r : ℤ} (hr : 1 ≤ r) :
    fp8Scalar ((r : ℝ) / 8) = (r : ℝ) / 8 := by
  have hr' : (1 : ℝ) ≤ (r : ℝ) := by exact_mod_cast hr
  have hpos : (0 : ℝ) < (r : ℝ) / 8 := by linarith
  have habs : |(r : ℝ) / 8| = (r : ℝ) / 8 := abs_of_pos hpos
  have hε : 1/10^10 < |(r : ℝ) / 8| := by rw [habs]; linarith
  have hmul : |(r : ℝ) / 8| * 8 = (r : ℝ) := by rw [habs]; ring
  simp only [fp8Scalar]
  rw [if_pos hε, npSign_pos hpos, hmul, npRound_intCast, one_mul]

/-- The emulator fixes negative multiples of `1/8`. -/
theorem fp8Scalar_neg_intDiv8 {r : ℤ} (hr : 1 ≤ r) :
    fp8Scalar (-((r : ℝ) / 8)) = -((r : ℝ) / 8) := by
  have hr' : (1 : ℝ) ≤ (r : ℝ) := by exact_mod_cast hr
  have hpos : (0 : ℝ) < (r : ℝ) / 8 := by linarith
  have hneg : -((r : ℝ) / 8) < 0 := by linarith
  have habs : |(-((r : ℝ) / 8))| = (r : ℝ) / 8 := by
    rw [abs_neg, abs_of_pos hpos]
  have hε : 1/10^10 < |(-((r : ℝ) / 8))| := by rw [habs]; linarith
  have hmul : |(-((r : ℝ) / 8))| * 8 = (r : ℝ) := by rw [habs]; ring
  simp only [fp8Scalar]
  rw [if_pos hε, npSign_neg hneg, hmul, npRound_intCast]
  ring

/-- Scalar form of the claim C6 formula: the emulator equals
"zero below the threshold, else sign times `round(8|x|)/8`". -/
theorem fp8Scalar_formula (a : ℝ) :
    fp8Scalar a =
      if |a| < 1/10^10 then 0 else npSign a * ((npRound (|a| * 8) : ℝ) / 8) := by
  simp only [fp8Scalar]
  by_cases h1 : 1/10^10 < |a|
  · rw [if_pos h1, if_neg (by linarith)]
  · rw [if_neg h1, mul_zero]
    by_cases h2 : |a| < 1/10^10
    · rw [if_pos h2]
    · -- boundary case `|a| = 1e-10`: the rounded value is zero as well
      have heq : |a| = 1/10^10 := le_antisymm (not_lt.mp h1) (not_lt.mp h2)
      have hr : npRound (|a| * 8) = 0 := by
        apply npRound_eq_of_lt_half 0
        · rw [heq]; norm_num
        · rw [heq]; norm_num
      rw [if_neg h2, hr]
      norm_num

/-- The emulator fixes one. -/
theorem fp8Scalar_one : fp8Scalar 1 = 1 := by
  have h := fp8Scalar_intDiv8 (r := 8) (by norm_num)
  norm_num at h
  exact h

/-- Unfolding the dot product on cons cells. -/
theorem dot_cons (a b : ℝ) (u v : Vec) :
    dot (a :: u) (b :: v) = a * b + dot u v := by
  simp [dot]

/-- The dot product of a vector with itself is nonnegative. -/
theorem dot_self_nonneg (v : Vec) : 0 ≤ dot v v := by
  induction v with
  | nil => simp [dot]
  | cons a t ih => rw [dot_cons]; nlinarith [sq_nonneg a]

/-- The Euclidean norm is nonnegative. -/
theorem norm2_nonneg (v : Vec) : 0 ≤ norm2 v := Real.sqrt_nonneg _

/-- Quadratic scaling of the self dot product. -/
theorem dot_smul_self (c : ℝ) (v : Vec) :
    dot (smulVec c v) (smulVec c v) = c^2 * dot v v := by
  induction v with
  | nil => simp [dot, smulVec]
  | cons a t ih =>
      simp only [smulVec, List.map_cons] at ih ⊢
      rw [dot_cons, dot_cons, ih]
      ring

/-- Homogeneity of the Euclidean norm. -/
theorem norm2_smul (c : ℝ) (v : Vec) : norm2 (smulVec c v) = |c| * norm2 v := by
  unfold norm2
  rw [dot_smul_self, Real.sqrt_mul (sq_nonneg c), Real.sqrt_sq_eq_abs]

/-- Normalizing a vector of positive norm yields a unit vector. -/
theorem norm2_normalize {v : Vec} (h : 0 < norm2 v) :
    norm2 (smulVec (1 / norm2 v) v) = 1 := by
  rw [norm2_smul, abs_of_pos (by positivity), one_div,
    inv_mul_cancel₀ (ne_of_gt h)]

/-- Norm of a one-element vector. -/
theorem norm2_singleton (a : ℝ) : norm2 [a] = |a| := by
  simp only [norm2, dot, List.zipWith_cons_cons, List.zipWith_nil_right,
    List.sum_cons, List.sum_nil, add_zero]
  rw [Real.sqrt_mul_self_eq_abs]

/-- Scalar idempotence of the emulator. -/
theorem fp8Scalar_idem (x : ℝ) : fp8Scalar (fp8Scalar x) = fp8Scalar x := by
  rcases lt_trichotomy x 0 with hx | hx | hx
  · -- negative input: sign is -1
    by_cases hε : 1/10^10 < |x|
    · set r : ℤ := npRound (|x| * 8) with hr
      have hval : fp8Scalar x = -((r : ℝ) / 8) := by
        simp only [fp8Scalar]
        rw [if_pos hε, npSign_neg hx, ← hr]
        ring
      have hr0 : 0 ≤ r := npRound_nonneg (by positivity)
      rcases eq_or_lt_of_le hr0 with h1 | h1
      · have hz : fp8Scalar x = 0 := by rw [hval, ← h1]; norm_num
        rw [hz, fp8Scalar_zero]
      · rw [hval, fp8Scalar_neg_intDiv8 h1]
    · have hz : fp8Scalar x = 0 := by
        simp only [fp8Scalar]
        rw [if_neg hε, mul_zero]
      rw [hz, fp8Scalar_zero]
  · subst hx; rw [fp8Scalar_zero, fp8Scalar_zero]
  · -- positive input: sign is 1
    by_cases hε : 1/10^10 < |x|
    · set r : ℤ := npRound (|x| * 8) with hr
      have hval : fp8Scalar x = (r : ℝ) / 8 := by
        simp only [fp8Scalar]
        rw [if_pos hε, npSign_pos hx, ← hr, one_mul]
      have hr0 : 0 ≤ r := npRound_nonneg (by positivity)
      rcases eq_or_lt_of_le hr0 with h1 | h1
      · have hz : fp8Scalar x = 0 := by rw [hval, ← h1]; norm_num
        rw [hz, fp8Scalar_zero]
      · rw [hval, fp8Scalar_intDiv8 h1]
    · have hz : fp8Scalar x = 0 := by
        simp only [fp8Scalar]
        rw [if_neg hε, mul_zero]
      rw [hz, fp8Scalar_zero]

/-- C6: for every input array `v`, the low-precision emulator returns,
elementwise, the original sign reapplied to `round(|v| * 8) / 8`, with
magnitudes below `1e-10` treated as exactly zero.  (As a pure function of its
argument, the embedding trivially neither reads other state nor mutates the
input.) -/
theorem simulate_fp8_spec_formula (v : Vec) :
    simulate_fp8 v =
      v.map (fun a => if |a| < 1/10^10 then 0
                      else npSign a * ((npRound (|a| * 8) : ℝ) / 8)) := by
  unfold simulate_fp8
  induction v with
  | nil => rfl
  | cons a t ih =>
      simp only [List.map_cons, List.cons.injEq]
      exact ⟨fp8Scalar_formula a, by simpa [simulate_fp8] using ih⟩

/-- C7: the low-precision emulator is idempotent: applying `simulate_fp8`
twice yields elementwise the same array as applying it once. -/
theorem simulate_fp8_idem (v : Vec) :
    simulate_fp8 (simulate_fp8 v) = simulate_fp8 v := by
  unfold simulate_fp8
  induction v with
  | nil => rfl
  | cons a t ih =>
      simp only [List.map_cons, List.cons.injEq]
      exact ⟨fp8Scalar_idem a, by simpa [simulate_fp8] using ih⟩

/-- Evaluation of the quantized matrix in the mini fixture. -/
theorem mini_acompute : acompute pMini = [[1]] := by
  simp [acompute, pMini, simulateFp8Mat, simulate_fp8, fp8Scalar_one]

/-- Evaluation of the quantized vector in the mini fixture. -/
theorem mini_xcompute : xcompute pMini [1] = [1] := by
  rw [xcompute, if_pos (show pMini.simulate_fp8 = true from rfl)]
  simp [simulate_fp8, fp8Scalar_one]

/-- Evaluation of the raw product in the mini fixture. -/
theorem mini_xnewRaw : xnewRaw pMini [1] = [1] := by
  have hm : matvec [[(1 : ℝ)]] [1] = [1] := by simp [matvec, dot]
  unfold xnewRaw
  rw [mini_xcompute, mini_acompute, hm]
  show (if pMini.simulate_fp8 = true then simulate_fp8 [1] else [1]) = [1]
  rw [if_pos (show pMini.simulate_fp8 = true from rfl)]
  simp [simulate_fp8, fp8Scalar_one]

/-- Evaluation of the product norm in the mini fixture. -/
theorem mini_iterNorm : iterNorm pMini [1] = 1 := by
  rw [iterNorm, mini_xnewRaw, norm2_singleton]
  norm_num

/-- The mini fixture does not hit the near-null exit. -/
theorem mini_notNull : ¬ iterNorm pMini [1] < 1/10^10 := by
  rw [mini_iterNorm]
  norm_num

/-- Evaluation of the normalized iterate in the mini fixture. -/
theorem mini_xnewNormed : xnewNormed pMini [1] = [1] := by
  rw [xnewNormed, mini_iterNorm, mini_xnewRaw]
  norm_num [smulVec]

/-- Evaluation of the Rayleigh quotient in the mini fixture. -/
theorem mini_eig : iterEigenvalue pMini [1] = 1 := by
  rw [iterEigenvalue, mini_xnewNormed, mini_acompute]
  simp [matvec, dot]

/-- Evaluation of the relative error in the mini fixture. -/
theorem mini_relErr : iterRelErr pMini [1] = 0 := by
  rw [iterRelErr, mini_eig]
  norm_num [pMini]

/-- Evaluation of the residual in the state `sOne` of the mini fixture. -/
theorem mini_residual_sOne : iterResidual pMini sOne = 0 := by
  have hx : sOne.x = [1] := rfl
  have hi : sOne.iteration = 1 := rfl
  rw [iterResidual, hx, hi, mini_xnewNormed, mini_eig, mini_acompute, convRes]
  rw [if_neg (by norm_num)]
  simp only [check_convergence]
  simp [matvec, dot, subVec, smulVec, norm2_singleton, sOne]

/-- Evaluation of the near-null product of the zero fixture. -/
theorem zero_iterNorm : iterNorm pZero [1] = 0 := by
  have h : xnewRaw pZero [1] = [0] := by
    simp [xnewRaw, xcompute, acompute, pZero, simulateFp8Mat, simulate_fp8,
      fp8Scalar_one, fp8Scalar_zero, matvec, dot]
  rw [iterNorm, h, norm2_singleton]
  norm_num

/-- C1: for iterations after the first within a tier, the convergence test
returns true iff the relative eigenvalue change (relative when
`|lambda_old| > 1e-14`, absolute otherwise) is strictly below the tier's
`eigenvalue_tol` AND the residual norm `|A x - lambda x|` is strictly below
the tier's `residual_tol`; it also returns that residual norm.  On the first
iteration of a tier the test is skipped (not converged) while the residual
norm is still computed and stored in the appended record. -/
theorem claim_C1 (A : Mat) (x : Vec) (ev evold : ℝ) (name : String) (k : ℕ)
    (p : SegParams) (s : SegState) (hs : s.iteration = 0)
    (hnn : ¬ iterNorm p s.x < 1/10^10) :
    ((convRes A x ev evold (k + 1) name).1 ↔
        ((if 1/10^14 < |evold| then |ev - evold| / |evold| else |ev - evold|) <
            (PRECISION_TOLERANCES name).eigenvalue_tol ∧
          norm2 (subVec (matvec A x) (smulVec ev x)) <
            (PRECISION_TOLERANCES name).residual_tol)) ∧
      (convRes A x ev evold (k + 1) name).2 =
        norm2 (subVec (matvec A x) (smulVec ev x)) ∧
      ¬ (convRes A x ev evold 0 name).1 ∧
      (convRes A x ev evold 0 name).2 =
        norm2 (subVec (matvec A x) (smulVec ev x)) ∧
      (segmentStep p s).1.trace = s.trace ++ [iterRecord p s] ∧
      (iterRecord p s).residual_norm =
        norm2 (subVec (matvec (acompute p) (xnewNormed p s.x))
          (smulVec (iterEigenvalue p s.x) (xnewNormed p s.x))) ∧
      ¬ iterConv p s := by
  have hcr : convRes A x ev evold (k + 1) name =
      check_convergence A x ev evold name := by
    unfold convRes
    rw [if_neg (Nat.succ_ne_zero k)]
  have hcr0 : convRes A x ev evold 0 name =
      (False, norm2 (subVec (matvec A x) (smulVec ev x))) := by
    unfold convRes
    rw [if_pos rfl]
  refine ⟨?_, ?_, ?_, ?_, ?_, ?_, ?_⟩
  · rw [hcr]
    simp only [check_convergence]
  · rw [hcr]
    simp only [check_convergence]
  · rw [hcr0]
    exact not_false
  · rw [hcr0]
  · unfold segmentStep
    rw [if_neg hnn]
    split_ifs <;> simp [postIterState]
  · have : (iterRecord p s).residual_norm = iterResidual p s := rfl
    rw [this, iterResidual, hs, convRes, if_pos rfl]
  · rw [iterConv, hs, convRes, if_pos rfl]
    exact not_false

/-- C1 witness: concrete instantiation in the mini fixture at local
iteration 0 of the first tier. -/
theorem claim_C1_witness :
    (segmentStep pMini (initSeg [1] 0)).1.trace =
      (initSeg [1] 0).trace ++ [iterRecord pMini (initSeg [1] 0)] ∧
    ¬ iterConv pMini (initSeg [1] 0) := by
  have hx : (initSeg [1] 0).x = [1] := rfl
  have h := claim_C1 [[1]] [1] 1 0 "FP8" 0 pMini (initSeg [1] 0) rfl
    (by rw [hx]; exact mini_notNull)
  exact ⟨h.2.2.2.2.1, h.2.2.2.2.2.2⟩

/-- C2: within a tier loop, after each completed iteration the stop
conditions are evaluated in priority order: dual convergence (stop,
converged=true); else relative error at most the global target (stop,
converged=true); else stagnation counter reached `max_stagnant` (stop,
converged=false); else continue.  The segment's converged flag starts false
and an exhausted iteration budget leaves the state as is (converged=false
for a whole segment that never stopped). -/
theorem claim_C2 (p : SegParams) (s : SegState) (x : Vec) (t : ℝ)
    (hnn : ¬ iterNorm p s.x < 1/10^10) :
    (iterConv p s →
        segmentStep p s = ({ postIterState p s with converged := true }, true)) ∧
      (¬ iterConv p s → iterRelErr p s.x ≤ p.target_error →
        segmentStep p s = ({ postIterState p s with converged := true }, true)) ∧
      (¬ iterConv p s → ¬ iterRelErr p s.x ≤ p.target_error →
        p.max_stagnant ≤ stagnantUpdate p s →
        segmentStep p s = ({ postIterState p s with converged := false }, true)) ∧
      (¬ iterConv p s → ¬ iterRelErr p s.x ≤ p.target_error →
        stagnantUpdate p s < p.max_stagnant →
        segmentStep p s = (postIterState p s, false)) ∧
      (initSeg x t).converged = false ∧
      runSegment p 0 s = s := by
  refine ⟨?_, ?_, ?_, ?_, rfl, rfl⟩
  · intro h1
    unfold segmentStep
    rw [if_neg hnn, if_pos h1]
  · intro h1 h2
    unfold segmentStep
    rw [if_neg hnn, if_neg h1, if_pos h2]
  · intro h1 h2 h3
    unfold segmentStep
    rw [if_neg hnn, if_neg h1, if_neg h2, if_pos h3]
  · intro h1 h2 h3
    unfold segmentStep
    rw [if_neg hnn, if_neg h1, if_neg h2, if_neg (not_le.mpr h3)]

/-- C2 witness: in the mini fixture the first iteration reaches the global
target (branch b) and the segment stops converged. -/
theorem claim_C2_witness :
    (segmentStep pMini (initSeg [1] 0)).2 = true ∧
      (segmentStep pMini (initSeg [1] 0)).1.converged = true := by
  have hx : (initSeg [1] 0).x = [1] := rfl
  have hnc : ¬ iterConv pMini (initSeg [1] 0) := by
    have hi : (initSeg ([1] : Vec) 0).iteration = 0 := rfl
    rw [iterConv, hi, convRes, if_pos rfl]
    exact not_false
  have hrel : iterRelErr pMini ((initSeg [1] 0).x) ≤ pMini.target_error := by
    rw [hx, mini_relErr]
    norm_num [pMini]
  have h := (claim_C2 pMini (initSeg [1] 0) [1] 0
    (by rw [hx]; exact mini_notNull)).2.1 hnc hrel
  rw [h]
  exact ⟨rfl, rfl⟩

/-- C3: from the second iteration of a tier onward, the stagnation counter
is incremented when the magnitude of the residual improvement is below
`1e-10` and reset to zero otherwise; the current residual norm is stored as
the new `last_error`; on the first iteration the counter is untouched; and
the counter starts at zero at the beginning of every tier segment. -/
theorem claim_C3 (p : SegParams) (s s0 : SegState) (x : Vec) (t : ℝ)
    (hk : 0 < s.iteration) (h0 : s0.iteration = 0)
    (hnn : ¬ iterNorm p s.x < 1/10^10) (hnn0 : ¬ iterNorm p s0.x < 1/10^10) :
    (segmentStep p s).1.stagnant_count =
        (if |s.last_error - iterResidual p s| < 1/10^10 then
          s.stagnant_count + 1 else 0) ∧
      (segmentStep p s).1.last_error = iterResidual p s ∧
      (segmentStep p s0).1.stagnant_count = s0.stagnant_count ∧
      (initSeg x t).stagnant_count = 0 := by
  have hgen : ∀ s' : SegState, ¬ iterNorm p s'.x < 1/10^10 →
      (segmentStep p s').1.stagnant_count = stagnantUpdate p s' ∧
        (segmentStep p s').1.last_error = iterResidual p s' := by
    intro s' hnn'
    unfold segmentStep
    rw [if_neg hnn']
    split_ifs <;> exact ⟨rfl, rfl⟩
  refine ⟨?_, (hgen s hnn).2, ?_, rfl⟩
  · rw [(hgen s hnn).1, stagnantUpdate, if_pos hk]
  · rw [(hgen s0 hnn0).1, stagnantUpdate, if_neg (by rw [h0]; exact lt_irrefl 0)]

/-- C3 witness: in the mini fixture at local iteration 1 the residual stalls
at zero, so the counter is incremented to 1. -/
theorem claim_C3_witness :
    (segmentStep pMini sOne).1.stagnant_count = 1 ∧
      (segmentStep pMini (initSeg [1] 0)).1.stagnant_count = 0 := by
  have hx : sOne.x = [1] := rfl
  have hx0 : (initSeg [1] 0).x = [1] := rfl
  have h := claim_C3 pMini sOne (initSeg [1] 0) [1] 0 (by norm_num [sOne]) rfl
    (by rw [hx]; exact mini_notNull) (by rw [hx0]; exact mini_notNull)
  constructor
  · rw [h.1, mini_residual_sOne]
    norm_num [sOne]
  · exact h.2.2.1

/-- Unit norm is preserved by a single loop pass. -/
theorem segmentStep_norm (p : SegParams) (s : SegState)
    (h : norm2 s.x = 1) : norm2 ((segmentStep p s).1.x) = 1 := by
  unfold segmentStep
  by_cases hnn : iterNorm p s.x < 1/10^10
  · rw [if_pos hnn]
    exact h
  · have hpos : 0 < iterNorm p s.x :=
      lt_of_lt_of_le (by norm_num) (not_lt.mp hnn)
    have hx : norm2 (xnewNormed p s.x) = 1 := by
      rw [xnewNormed]
      have : iterNorm p s.x = norm2 (xnewRaw p s.x) := rfl
      rw [this] at hpos ⊢
      exact norm2_normalize hpos
    rw [if_neg hnn]
    split_ifs <;> simpa [postIterState] using hx

/-- Unit norm is preserved by a whole segment. -/
theorem runSegment_norm (p : SegParams) (m : ℕ) (s : SegState)
    (h : norm2 s.x = 1) : norm2 ((runSegment p m s).x) = 1 := by
  induction m generalizing s with
  | zero => exact h
  | succ k ih =>
      unfold runSegment
      by_cases hb : (segmentStep p s).2 = true
      · simp only [hb, if_true]
        exact segmentStep_norm p s h
      · simp only [hb, if_false]
        exact ih _ (segmentStep_norm p s h)

/-- C5: if the vector entering the single-tier iterator has unit 2-norm,
then after every completed iteration the eigenvector estimate has 2-norm
exactly one (in the real-number idealisation of floating point), and the
vector returned at the end of every tier segment also has unit 2-norm. -/
theorem claim_C5 (p : SegParams) (s : SegState) (m : ℕ) (x : Vec) (t : ℝ)
    (hs : norm2 s.x = 1) (hx : norm2 x = 1) :
    norm2 ((segmentStep p s).1.x) = 1 ∧
      norm2 ((runSegment p m (initSeg x t)).x) = 1 :=
  ⟨segmentStep_norm p s hs, runSegment_norm p m (initSeg x t) hx⟩

/-- C5 witness: concrete unit vector in the mini fixture. -/
theorem claim_C5_witness :
    norm2 ((segmentStep pMini (initSeg [1] 0)).1.x) = 1 ∧
      norm2 ((runSegment pMini 1 (initSeg [1] 0)).x) = 1 := by
  have h1 : norm2 [(1 : ℝ)] = 1 := by
    rw [norm2_singleton]
    norm_num
  exact claim_C5 pMini (initSeg [1] 0) 1 [1] 0 h1 h1

/-- C8: when the 2-norm of the fresh product is below `1e-10`, the tier loop
stops immediately: the pass leaves the state untouched (no record appended)
and the whole remaining segment ends with exactly the records gathered so
far.  (The embedding is a total function: no exception is involved.) -/
theorem claim_C8 (p : SegParams) (s : SegState) (m : ℕ)
    (h : iterNorm p s.x < 1/10^10) :
    segmentStep p s = (s, true) ∧ runSegment p (m + 1) s = s ∧
      (runSegment p (m + 1) s).trace = s.trace := by
  have h1 : segmentStep p s = (s, true) := by
    unfold segmentStep
    rw [if_pos h]
  have h2 : runSegment p (m + 1) s = s := by
    simp [runSegment, h1]
  exact ⟨h1, h2, by rw [h2]⟩

/-- C8 witness: the zero matrix produces a null product and the segment
ends with the empty trace. -/
theorem claim_C8_witness :
    segmentStep pZero (initSeg [1] 0) = (initSeg [1] 0, true) ∧
      (runSegment pZero 5 (initSeg [1] 0)).trace = [] := by
  have hx : (initSeg [1] 0).x = [1] := rfl
  have h := claim_C8 pZero (initSeg [1] 0) 4
    (by rw [hx, zero_iterNorm]; norm_num)
  exact ⟨h.1, h.2.2⟩

/-- Each pass either leaves the trace alone (near-null exit) or appends one
record carrying the tier name and the static operation and byte counts. -/
theorem segmentStep_trace_mem (p : SegParams) (s : SegState)
    (r : IterationRecord) (hr : r ∈ (segmentStep p s).1.trace) :
    r ∈ s.trace ∨
      (r.precision = p.precision_name ∧
        r.ops_count = 2 * p.n * p.n + p.n ∧
        r.bytes_transferred = (p.n * p.n + 2 * p.n) * p.dtype_bytes) := by
  unfold segmentStep at hr
  by_cases hnn : iterNorm p s.x < 1/10^10
  · rw [if_pos hnn] at hr
    exact Or.inl hr
  · rw [if_neg hnn] at hr
    have hr' : r ∈ s.trace ++ [iterRecord p s] := by
      split_ifs at hr <;> simpa [postIterState] using hr
    rcases List.mem_append.mp hr' with h | h
    · exact Or.inl h
    · right
      have heq : r = iterRecord p s := List.mem_singleton.mp h
      subst heq
      exact ⟨rfl, rfl, rfl⟩

/-- Trace membership across a whole segment. -/
theorem runSegment_trace_mem (p : SegParams) (m : ℕ) (s : SegState)
    (r : IterationRecord) (hr : r ∈ (runSegment p m s).trace) :
    r ∈ s.trace ∨
      (r.precision = p.precision_name ∧
        r.ops_count = 2 * p.n * p.n + p.n ∧
        r.bytes_transferred = (p.n * p.n + 2 * p.n) * p.dtype_bytes) := by
  induction m generalizing s with
  | zero => exact Or.inl hr
  | succ k ih =>
      simp only [runSegment] at hr
      by_cases hb : (segmentStep p s).2 = true
      · rw [if_pos hb] at hr
        exact segmentStep_trace_mem p s r hr
      · rw [if_neg hb] at hr
        rcases ih _ hr with h | h
        · exact segmentStep_trace_mem p s r h
        · exact Or.inr h

/-- Trace membership across the tier loop of `run`: every emitted record
stems from some cascade entry and carries that tier's counts. -/
theorem runLoop_trace_mem (M : CascadingPowerMethod) (te : ℝ) (mi : ℕ)
    (dts : ℕ → ℝ) (entries : List CascadeEntry) (acc : LoopAcc)
    (r : IterationRecord)
    (hr : r ∈ (runLoop M te mi dts entries acc).full_trace) :
    r ∈ acc.full_trace ∨
      ∃ e ∈ entries, r.precision = e.name ∧
        r.ops_count = 2 * M.matrix_size * M.matrix_size + M.matrix_size ∧
        r.bytes_transferred =
          (M.matrix_size * M.matrix_size + 2 * M.matrix_size) *
            get_dtype_bytes e.dtype e.simulate_fp8 := by
  induction entries generalizing acc with
  | nil => exact Or.inl hr
  | cons e rest ih =>
      simp only [runLoop] at hr
      by_cases h1 : mi ≤ acc.total_iterations
      · rw [if_pos h1] at hr
        exact Or.inl hr
      · rw [if_neg h1] at hr
        have hseg : ∀ r' : IterationRecord,
            r' ∈ (runSegment (segParamsOf M te dts e acc.total_iterations)
              (mi - acc.total_iterations)
              (initSeg acc.x acc.time_offset)).trace →
            r'.precision = e.name ∧
              r'.ops_count = 2 * M.matrix_size * M.matrix_size +
                M.matrix_size ∧
              r'.bytes_transferred =
                (M.matrix_size * M.matrix_size + 2 * M.matrix_size) *
                  get_dtype_bytes e.dtype e.simulate_fp8 := by
          intro r' hr'
          rcases runSegment_trace_mem _ _ _ r' hr' with h | h
          · exact absurd h (List.not_mem_nil r')
          · exact h
        have hacc : ∀ hmem : r ∈ (accAppend acc
            (segInfoOf e (segParamsOf M te dts e acc.total_iterations)
              acc.total_iterations
              (runSegment (segParamsOf M te dts e acc.total_iterations)
                (mi - acc.total_iterations) (initSeg acc.x acc.time_offset)))
            (runSegment (segParamsOf M te dts e acc.total_iterations)
              (mi - acc.total_iterations)
              (initSeg acc.x acc.time_offset))).full_trace,
            r ∈ acc.full_trace ∨
              ∃ e' ∈ e :: rest, r.precision = e'.name ∧
                r.ops_count = 2 * M.matrix_size * M.matrix_size +
                  M.matrix_size ∧
                r.bytes_transferred =
                  (M.matrix_size * M.matrix_size + 2 * M.matrix_size) *
                    get_dtype_bytes e'.dtype e'.simulate_fp8 := by
          intro hmem
          rcases List.mem_append.mp hmem with h | h
          · exact Or.inl h
          · exact Or.inr ⟨e, List.mem_cons_self e rest, hseg r h⟩
        by_cases h2 : (runSegment (segParamsOf M te dts e acc.total_iterations)
            (mi - acc.total_iterations)
            (initSeg acc.x acc.time_offset)).trace.isEmpty = true
        · rw [if_pos h2] at hr
          exact Or.inl hr
        · rw [if_neg h2] at hr
          by_cases h3 : (runSegment (segParamsOf M te dts e
              acc.total_iterations) (mi - acc.total_iterations)
              (initSeg acc.x acc.time_offset)).converged ∧
              ((runSegment (segParamsOf M te dts e acc.total_iterations)
                (mi - acc.total_iterations)
                (initSeg acc.x acc.time_offset)).trace.getLast!).relative_error
                ≤ te
          · rw [if_pos h3] at hr
            exact hacc hr
          · rw [if_neg h3] at hr
            rcases ih _ hr with h | h
            · exact hacc h
            · rcases h with ⟨e', he', hprop⟩
              exact Or.inr ⟨e', List.mem_cons_of_mem e he', hprop⟩

/-- C9: every IterationRecord produced by the cascade satisfies
`ops_count = 2 n^2 + n` and `bytes_transferred = (n^2 + 2 n) * elementSize`,
with elementSize 1 for the emulated FP8 tier, 2 for FP16, 4 for FP32 and 8
for FP64, independently of timing or convergence state. -/
theorem claim_C9 (M : CascadingPowerMethod) (x0 : Vec) (te : ℝ) (mi : ℕ)
    (dts : ℕ → ℝ) (r : IterationRecord)
    (hr : r ∈ (M.run x0 te mi dts).trace) :
    r.ops_count = 2 * M.matrix_size * M.matrix_size + M.matrix_size ∧
      ((r.precision = "FP8" ∧ r.bytes_transferred =
          (M.matrix_size * M.matrix_size + 2 * M.matrix_size) * 1) ∨
        (r.precision = "FP16" ∧ r.bytes_transferred =
          (M.matrix_size * M.matrix_size + 2 * M.matrix_size) * 2) ∨
        (r.precision = "FP32" ∧ r.bytes_transferred =
          (M.matrix_size * M.matrix_size + 2 * M.matrix_size) * 4) ∨
        (r.precision = "FP64" ∧ r.bytes_transferred =
          (M.matrix_size * M.matrix_size + 2 * M.matrix_size) * 8)) := by
  have hr' : r ∈ (runLoop M te mi dts PRECISION_CASCADE
      { full_trace := [], precision_segments := [], total_iterations := 0,
        x := smulVec (1 / norm2 x0) x0, time_offset := 0 }).full_trace := hr
  rcases runLoop_trace_mem M te mi dts PRECISION_CASCADE _ r hr' with h | h
  · exact absurd h (List.not_mem_nil r)
  · rcases h with ⟨e, he, hname, hops, hbytes⟩
    refine ⟨hops, ?_⟩
    simp only [PRECISION_CASCADE, List.mem_cons, List.mem_singleton] at he
    rcases he with rfl | rfl | rfl | rfl | h
    · exact Or.inl ⟨hname, hbytes⟩
    · exact Or.inr (Or.inl ⟨hname, hbytes⟩)
    · exact Or.inr (Or.inr (Or.inl ⟨hname, hbytes⟩))
    · exact Or.inr (Or.inr (Or.inr ⟨hname, hbytes⟩))
    · exact absurd h (List.not_mem_nil e)

/-- In the mini fixture the first pass stops via the target-error branch. -/
theorem mini_step_eval :
    segmentStep pMini (initSeg [1] 0) =
      ({ postIterState pMini (initSeg [1] 0) with converged := true }, true) := by
  have hx : (initSeg ([1] : Vec) 0).x = [1] := rfl
  have hnn : ¬ iterNorm pMini ((initSeg ([1] : Vec) 0).x) < 1/10^10 := by
    rw [hx]
    exact mini_notNull
  have hnc : ¬ iterConv pMini (initSeg [1] 0) := by
    have hi : (initSeg ([1] : Vec) 0).iteration = 0 := rfl
    rw [iterConv, hi, convRes, if_pos rfl]
    exact not_false
  have hrel : iterRelErr pMini ((initSeg ([1] : Vec) 0).x) ≤
      pMini.target_error := by
    rw [hx, mini_relErr]
    norm_num [pMini]
  unfold segmentStep
  rw [if_neg hnn, if_neg hnc, if_pos hrel]

/-- The mini segment on any positive budget stops after one iteration. -/
theorem mini_seg_eval :
    runSegment pMini 5 (initSeg [1] 0) =
      { postIterState pMini (initSeg [1] 0) with converged := true } := by
  simp [runSegment, mini_step_eval]

/-- Trace of the finished mini segment. -/
theorem mini_fin_trace :
    (runSegment pMini (5 - 0) (initSeg [1] 0)).trace =
      [iterRecord pMini (initSeg [1] 0)] := by
  rw [show (5 : ℕ) - 0 = 5 from rfl, mini_seg_eval]
  simp [postIterState, initSeg]

/-- Converged flag of the finished mini segment. -/
theorem mini_fin_conv :
    (runSegment pMini (5 - 0) (initSeg [1] 0)).converged = true := by
  rw [show (5 : ℕ) - 0 = 5 from rfl, mini_seg_eval]

/-- The complete mini cascade run produces exactly one record. -/
theorem mini_run_trace :
    (MMini.run [1] 1 5 (fun _ => 0)).trace =
      [iterRecord pMini (initSeg [1] 0)] := by
  have hx0 : smulVec (1 / norm2 [1]) ([1] : Vec) = [1] := by
    rw [norm2_singleton]
    norm_num [smulVec]
  have hparams : segParamsOf MMini 1 (fun _ => 0)
      { name := "FP8", dtype := Dtype.float32, simulate_fp8 := true,
        threshold := 5/100, max_stagnant := 10 } 0 = pMini := rfl
  show (runLoop MMini 1 5 (fun _ => 0) PRECISION_CASCADE
      { full_trace := [], precision_segments := [], total_iterations := 0,
        x := smulVec (1 / norm2 [1]) [1], time_offset := 0 }).full_trace =
    [iterRecord pMini (initSeg [1] 0)]
  rw [hx0]
  simp only [PRECISION_CASCADE, runLoop]
  rw [if_neg (by norm_num : ¬ (5 : ℕ) ≤ 0), hparams]
  rw [if_neg (by rw [mini_fin_trace]; simp)]
  rw [if_pos ?hconv]
  case hconv =>
    constructor
    · rw [mini_fin_conv]
    · rw [mini_fin_trace]
      have : ([iterRecord pMini (initSeg [1] 0)]).getLast! =
          iterRecord pMini (initSeg [1] 0) := rfl
      rw [this]
      have hrec : (iterRecord pMini (initSeg [1] 0)).relative_error =
          iterRelErr pMini ((initSeg ([1] : Vec) 0).x) := rfl
      rw [hrec, show (initSeg ([1] : Vec) 0).x = [1] from rfl, mini_relErr]
      norm_num
  show ([] : List IterationRecord) ++ (runSegment pMini (5 - 0)
      (initSeg [1] 0)).trace = [iterRecord pMini (initSeg [1] 0)]
  rw [mini_fin_trace, List.nil_append]

/-- C9 witness: the single record of the mini cascade run carries
`ops_count = 3` and FP8 `bytes_transferred = 3`. -/
theorem claim_C9_witness :
    (iterRecord pMini (initSeg [1] 0)).ops_count =
        2 * MMini.matrix_size * MMini.matrix_size + MMini.matrix_size ∧
      (((iterRecord pMini (initSeg [1] 0)).precision = "FP8" ∧
          (iterRecord pMini (initSeg [1] 0)).bytes_transferred =
            (MMini.matrix_size * MMini.matrix_size + 2 * MMini.matrix_size) * 1) ∨
        ((iterRecord pMini (initSeg [1] 0)).precision = "FP16" ∧
          (iterRecord pMini (initSeg [1] 0)).bytes_transferred =
            (MMini.matrix_size * MMini.matrix_size + 2 * MMini.matrix_size) * 2) ∨
        ((iterRecord pMini (initSeg [1] 0)).precision = "FP32" ∧
          (iterRecord pMini (initSeg [1] 0)).bytes_transferred =
            (MMini.matrix_size * MMini.matrix_size + 2 * MMini.matrix_size) * 4) ∨
        ((iterRecord pMini (initSeg [1] 0)).precision = "FP64" ∧
          (iterRecord pMini (initSeg [1] 0)).bytes_transferred =
            (MMini.matrix_size * MMini.matrix_size + 2 * MMini.matrix_size) * 8)) := by
  have hmem : iterRecord pMini (initSeg [1] 0) ∈
      (MMini.run [1] 1 5 (fun _ => 0)).trace := by
    rw [mini_run_trace]
    exact List.mem_singleton.mpr rfl
  exact claim_C9 MMini [1] 1 5 (fun _ => 0) _ hmem

/-- One loop pass never reads the escalation threshold. -/
theorem segmentStep_threshold (p : SegParams) (t : ℝ) (s : SegState) :
    segmentStep { p with threshold := t } s = segmentStep p s := rfl

/-- A whole segment never reads the escalation threshold. -/
theorem runSegment_threshold (p : SegParams) (t : ℝ) (m : ℕ) (s : SegState) :
    runSegment { p with threshold := t } m s = runSegment p m s := by
  induction m generalizing s with
  | zero => rfl
  | succ k ih =>
      simp only [runSegment, segmentStep_threshold]
      by_cases hb : (segmentStep p s).2 = true
      · rw [if_pos hb, if_pos hb]
      · rw [if_neg hb, if_neg hb, ih]

/-- Segment parameters of matching entries differ only in the threshold. -/
theorem segParamsOf_match (M : CascadingPowerMethod) (te : ℝ) (dts : ℕ → ℝ)
    {e₁ e₂ : CascadeEntry} (h : entryMatch e₁ e₂) (total : ℕ) :
    segParamsOf M te dts e₁ total =
      { segParamsOf M te dts e₂ total with threshold := e₁.threshold } := by
  rcases h with ⟨h1, h2, h3, h4⟩
  simp [segParamsOf, h1, h2, h3, h4]

/-- The tier loop of `run` is invariant under changing only the thresholds
of the cascade. -/
theorem runLoop_match (M : CascadingPowerMethod) (te : ℝ) (mi : ℕ)
    (dts : ℕ → ℝ) (c₁ c₂ : List CascadeEntry)
    (h : List.Forall₂ entryMatch c₁ c₂) :
    ∀ acc, runLoop M te mi dts c₁ acc = runLoop M te mi dts c₂ acc := by
  induction h with
  | nil => intro acc; rfl
  | @cons e₁ e₂ rest₁ rest₂ he _ ih =>
      intro acc
      simp only [runLoop]
      by_cases h1 : mi ≤ acc.total_iterations
      · rw [if_pos h1, if_pos h1]
      · rw [if_neg h1, if_neg h1]
        have hp : segParamsOf M te dts e₁ acc.total_iterations =
            { segParamsOf M te dts e₂ acc.total_iterations with
              threshold := e₁.threshold } := segParamsOf_match M te dts he _
        have hfin : runSegment (segParamsOf M te dts e₁ acc.total_iterations)
              (mi - acc.total_iterations) (initSeg acc.x acc.time_offset) =
            runSegment (segParamsOf M te dts e₂ acc.total_iterations)
              (mi - acc.total_iterations) (initSeg acc.x acc.time_offset) := by
          rw [hp, runSegment_threshold]
        have hseg : segInfoOf e₁ (segParamsOf M te dts e₁ acc.total_iterations)
              acc.total_iterations =
            segInfoOf e₂ (segParamsOf M te dts e₂ acc.total_iterations)
              acc.total_iterations := by
          funext fin
          simp [segInfoOf, he.1, hp]
        rw [hfin, hseg, ih]

/-- C10: two cascade runs identical except for the tiers' escalation
threshold values produce identical trace documents (records, precision
segments, metadata and summary): the threshold field is never read by the
per-tier loop, the convergence or stagnation policy, or the controller. -/
theorem claim_C10 (c₁ c₂ : List CascadeEntry)
    (h : List.Forall₂ entryMatch c₁ c₂) (M : CascadingPowerMethod)
    (x0 : Vec) (te : ℝ) (mi : ℕ) (dts : ℕ → ℝ) :
    runWith c₁ M x0 te mi dts = runWith c₂ M x0 te mi dts := by
  unfold runWith
  simp only [runLoop_match M te mi dts c₁ c₂ h]

/-- C10 witness: the standard cascade and a cascade with entirely different
thresholds give the same trace document on a concrete run. -/
theorem claim_C10_witness :
    runWith PRECISION_CASCADE MMini [1] 1 5 (fun _ => 0) =
      runWith PRECISION_CASCADE_ALT MMini [1] 1 5 (fun _ => 0) := by
  refine claim_C10 PRECISION_CASCADE PRECISION_CASCADE_ALT ?_ MMini [1] 1 5
    (fun _ => 0)
  unfold PRECISION_CASCADE PRECISION_CASCADE_ALT
  exact .cons ⟨rfl, rfl, rfl, rfl⟩ (.cons ⟨rfl, rfl, rfl, rfl⟩
    (.cons ⟨rfl, rfl, rfl, rfl⟩ (.cons ⟨rfl, rfl, rfl, rfl⟩ .nil)))

/-- Norm of a two-element vector. -/
theorem norm2_pair (a b : ℝ) : norm2 [a, b] = Real.sqrt (a * a + b * b) := by
  simp [norm2, dot]

/-- Rational bounds on `sqrt 10`. -/
theorem sqrt10_bounds : (31/10 : ℝ) < Real.sqrt 10 ∧ Real.sqrt 10 < 16/5 :=
  ⟨(Real.lt_sqrt (by norm_num)).mpr (by norm_num),
    (Real.sqrt_lt' (by norm_num)).mpr (by norm_num)⟩

/-- Rational bounds on the first bump iteration norm `sqrt (7361/64)`. -/
theorem sqrtBump0_bounds :
    (268/25 : ℝ) < Real.sqrt (7361/64) ∧ Real.sqrt (7361/64) < 1073/100 :=
  ⟨(Real.lt_sqrt (by norm_num)).mpr (by norm_num),
    (Real.sqrt_lt' (by norm_num)).mpr (by norm_num)⟩

/-- FP8 quantization of the bump matrix entry `9.72`. -/
theorem bump_q1 : fp8Scalar (243/25 : ℝ) = 39/4 := by
  have hpos : (0 : ℝ) < 243/25 := by norm_num
  have habs : |(243/25 : ℝ)| = 243/25 := abs_of_pos hpos
  have hr : npRound ((243/25 : ℝ) * 8) = 78 := by
    have h := npRound_eq_of_half_lt (x := (243/25 : ℝ) * 8) 77 (by norm_num)
      (by norm_num)
    simpa using h
  simp only [fp8Scalar]
  rw [habs, if_pos (by norm_num : (1 : ℝ)/10^10 < 243/25), npSign_pos hpos, hr]
  norm_num

/-- FP8 quantization of the bump matrix entry `0.5`. -/
theorem bump_q2 : fp8Scalar (1/2 : ℝ) = 1/2 := by
  have h := fp8Scalar_intDiv8 (r := 4) (by norm_num)
  norm_num at h
  exact h

/-- FP8 quantization of the bump matrix entry `8.97`. -/
theorem bump_q3 : fp8Scalar (897/100 : ℝ) = 9 := by
  have hpos : (0 : ℝ) < 897/100 := by norm_num
  have habs : |(897/100 : ℝ)| = 897/100 := abs_of_pos hpos
  have hr : npRound ((897/100 : ℝ) * 8) = 72 := by
    have h := npRound_eq_of_half_lt (x := (897/100 : ℝ) * 8) 71 (by norm_num)
      (by norm_num)
    simpa using h
  simp only [fp8Scalar]
  rw [habs, if_pos (by norm_num : (1 : ℝ)/10^10 < 897/100), npSign_pos hpos, hr]
  norm_num

/-- FP8 quantization of the first bump product component `9.9375` (an exact
tie `79.5` rounded up to the even integer `80`). -/
theorem bump_q4 : fp8Scalar (159/16 : ℝ) = 10 := by
  have hpos : (0 : ℝ) < 159/16 := by norm_num
  have habs : |(159/16 : ℝ)| = 159/16 := abs_of_pos hpos
  have hr : npRound ((159/16 : ℝ) * 8) = 80 := by
    have h := npRound_half_odd (x := (159/16 : ℝ) * 8) 79 (by norm_num)
      (by decide)
    simpa using h
  simp only [fp8Scalar]
  rw [habs, if_pos (by norm_num : (1 : ℝ)/10^10 < 159/16), npSign_pos hpos, hr]
  norm_num

/-- FP8 quantization of the exact multiple `31/8`. -/
theorem bump_q5 : fp8Scalar (31/8 : ℝ) = 31/8 := by
  have h := fp8Scalar_intDiv8 (r := 31) (by norm_num)
  norm_num at h
  exact h

/-- FP8 quantization of the second bump product component `8.71875`. -/
theorem bump_q6 : fp8Scalar (279/32 : ℝ) = 35/4 := by
  have hpos : (0 : ℝ) < 279/32 := by norm_num
  have habs : |(279/32 : ℝ)| = 279/32 := abs_of_pos hpos
  have hr : npRound ((279/32 : ℝ) * 8) = 70 := by
    have h := npRound_eq_of_half_lt (x := (279/32 : ℝ) * 8) 69 (by norm_num)
      (by norm_num)
    simpa using h
  simp only [fp8Scalar]
  rw [habs, if_pos (by norm_num : (1 : ℝ)/10^10 < 279/32), npSign_pos hpos, hr]
  norm_num

/-- FP8 quantization of `3.8125` (an exact tie `30.5` rounded down to the
even integer `30`). -/
theorem bump_q7 : fp8Scalar (61/16 : ℝ) = 15/4 := by
  have hpos : (0 : ℝ) < 61/16 := by norm_num
  have habs : |(61/16 : ℝ)| = 61/16 := abs_of_pos hpos
  have hr : npRound ((61/16 : ℝ) * 8) = 30 := by
    exact npRound_half_even (x := (61/16 : ℝ) * 8) 30 (by norm_num) (by decide)
  simp only [fp8Scalar]
  rw [habs, if_pos (by norm_num : (1 : ℝ)/10^10 < 61/16), npSign_pos hpos, hr]
  norm_num

/-- FP8 quantization of the first normalized start component `3 / sqrt 10`. -/
theorem bump_q8 : fp8Scalar (3 / Real.sqrt 10) = 1 := by
  have hs := sqrt10_bounds
  have hs0 : (0 : ℝ) < Real.sqrt 10 := Real.sqrt_pos.mpr (by norm_num)
  have hpos : (0 : ℝ) < 3 / Real.sqrt 10 := by positivity
  have habs : |3 / Real.sqrt 10| = 3 / Real.sqrt 10 := abs_of_pos hpos
  have hε : (1 : ℝ)/10^10 < 3 / Real.sqrt 10 := by
    rw [lt_div_iff₀ hs0]
    nlinarith [hs.2]
  have hr : npRound (3 / Real.sqrt 10 * 8) = 8 := by
    have e : 3 / Real.sqrt 10 * 8 = 24 / Real.sqrt 10 := by ring
    have h1 : (7 : ℝ) + 1/2 < 24 / Real.sqrt 10 := by
      rw [lt_div_iff₀ hs0]
      nlinarith [hs.2]
    have h2 : 24 / Real.sqrt 10 < (7 : ℝ) + 1 := by
      rw [div_lt_iff₀ hs0]
      nlinarith [hs.1]
    have h := npRound_eq_of_half_lt (x := 3 / Real.sqrt 10 * 8) 7
      (by rw [e]; exact_mod_cast h1) (by rw [e]; exact_mod_cast h2)
    simpa using h
  simp only [fp8Scalar]
  rw [habs, if_pos hε, npSign_pos hpos, hr]
  norm_num

/-- FP8 quantization of the second normalized start component `1 / sqrt 10`. -/
theorem bump_q9 : fp8Scalar (1 / Real.sqrt 10) = 3/8 := by
  have hs := sqrt10_bounds
  have hs0 : (0 : ℝ) < Real.sqrt 10 := Real.sqrt_pos.mpr (by norm_num)
  have hpos : (0 : ℝ) < 1 / Real.sqrt 10 := by positivity
  have habs : |1 / Real.sqrt 10| = 1 / Real.sqrt 10 := abs_of_pos hpos
  have hε : (1 : ℝ)/10^10 < 1 / Real.sqrt 10 := by
    rw [lt_div_iff₀ hs0]
    nlinarith [hs.2]
  have hr : npRound (1 / Real.sqrt 10 * 8) = 3 := by
    have e : 1 / Real.sqrt 10 * 8 = 8 / Real.sqrt 10 := by ring
    have h1 : (2 : ℝ) + 1/2 < 8 / Real.sqrt 10 := by
      rw [lt_div_iff₀ hs0]
      nlinarith [hs.2]
    have h2 : 8 / Real.sqrt 10 < (2 : ℝ) + 1 := by
      rw [div_lt_iff₀ hs0]
      nlinarith [hs.1]
    have h := npRound_eq_of_half_lt (x := 1 / Real.sqrt 10 * 8) 2
      (by rw [e]; exact_mod_cast h1) (by rw [e]; exact_mod_cast h2)
    simpa using h
  simp only [fp8Scalar]
  rw [habs, if_pos hε, npSign_pos hpos, hr]
  norm_num

/-- FP8 quantization of the first component of the normalized first iterate. -/
theorem bump_q10 : fp8Scalar (10 / Real.sqrt (7361/64)) = 7/8 := by
  have hs := sqrtBump0_bounds
  have hs0 : (0 : ℝ) < Real.sqrt (7361/64) := Real.sqrt_pos.mpr (by norm_num)
  have hpos : (0 : ℝ) < 10 / Real.sqrt (7361/64) := by positivity
  have habs : |10 / Real.sqrt (7361/64)| = 10 / Real.sqrt (7361/64) :=
    abs_of_pos hpos
  have hε : (1 : ℝ)/10^10 < 10 / Real.sqrt (7361/64) := by
    rw [lt_div_iff₀ hs0]
    nlinarith [hs.2]
  have hr : npRound (10 / Real.sqrt (7361/64) * 8) = 7 := by
    have e : 10 / Real.sqrt (7361/64) * 8 = 80 / Real.sqrt (7361/64) := by ring
    have h1 : (7 : ℝ) ≤ 80 / Real.sqrt (7361/64) := by
      rw [le_div_iff₀ hs0]
      nlinarith [hs.2]
    have h2 : 80 / Real.sqrt (7361/64) < (7 : ℝ) + 1/2 := by
      rw [div_lt_iff₀ hs0]
      nlinarith [hs.1]
    have h := npRound_eq_of_lt_half (x := 10 / Real.sqrt (7361/64) * 8) 7
      (by rw [e]; exact_mod_cast h1) (by rw [e]; exact_mod_cast h2)
    simpa using h
  simp only [fp8Scalar]
  rw [habs, if_pos hε, npSign_pos hpos, hr]
  norm_num

/-- FP8 quantization of the second component of the normalized first
iterate. -/
theorem bump_q11 : fp8Scalar (31 / (8 * Real.sqrt (7361/64))) = 3/8 := by
  have hs := sqrtBump0_bounds
  have hs0 : (0 : ℝ) < Real.sqrt (7361/64) := Real.sqrt_pos.mpr (by norm_num)
  have hs8 : (0 : ℝ) < 8 * Real.sqrt (7361/64) := by positivity
  have hpos : (0 : ℝ) < 31 / (8 * Real.sqrt (7361/64)) := by positivity
  have habs : |31 / (8 * Real.sqrt (7361/64))| =
      31 / (8 * Real.sqrt (7361/64)) := abs_of_pos hpos
  have hε : (1 : ℝ)/10^10 < 31 / (8 * Real.sqrt (7361/64)) := by
    rw [lt_div_iff₀ hs8]
    nlinarith [hs.2]
  have hr : npRound (31 / (8 * Real.sqrt (7361/64)) * 8) = 3 := by
    have e : 31 / (8 * Real.sqrt (7361/64)) * 8 =
        31 / Real.sqrt (7361/64) := by
      field_simp
      ring
    have h1 : (2 : ℝ) + 1/2 < 31 / Real.sqrt (7361/64) := by
      rw [lt_div_iff₀ hs0]
      nlinarith [hs.2]
    have h2 : 31 / Real.sqrt (7361/64) < (2 : ℝ) + 1 := by
      rw [div_lt_iff₀ hs0]
      nlinarith [hs.1]
    have h := npRound_eq_of_half_lt (x := 31 / (8 * Real.sqrt (7361/64)) * 8) 2
      (by rw [e]; exact_mod_cast h1) (by rw [e]; exact_mod_cast h2)
    simpa using h
  simp only [fp8Scalar]
  rw [habs, if_pos hε, npSign_pos hpos, hr]
  norm_num

/-- Rational bounds on the second bump iteration norm `sqrt (725/8)`. -/
theorem sqrtBump1_bounds :
    (9 : ℝ) < Real.sqrt (725/8) ∧ Real.sqrt (725/8) < 10 :=
  ⟨(Real.lt_sqrt (by norm_num)).mpr (by norm_num),
    (Real.sqrt_lt' (by norm_num)).mpr (by norm_num)⟩

/-- FP8 quantization of the bump matrix. -/
theorem bump_acompute : acompute pBump = [[39/4, 1/2], [1/2, 9]] := by
  rw [acompute, if_pos (show pBump.simulate_fp8 = true from rfl)]
  show simulateFp8Mat ABump = _
  simp only [simulateFp8Mat, simulate_fp8, ABump, List.map_cons, List.map_nil]
  rw [bump_q1, bump_q2, bump_q3]

/-- Quantized start vector of the bump run. -/
theorem bump_xc0 :
    xcompute pBump [3 / Real.sqrt 10, 1 / Real.sqrt 10] = [1, 3/8] := by
  rw [xcompute, if_pos (show pBump.simulate_fp8 = true from rfl)]
  simp only [simulate_fp8, List.map_cons, List.map_nil]
  rw [bump_q8, bump_q9]

/-- Raw first product of the bump run. -/
theorem bump_raw0 :
    xnewRaw pBump [3 / Real.sqrt 10, 1 / Real.sqrt 10] = [10, 31/8] := by
  unfold xnewRaw
  rw [bump_xc0, bump_acompute]
  have hm : matvec [[(39 : ℝ)/4, 1/2], [1/2, 9]] [1, 3/8] = [159/16, 31/8] := by
    simp [matvec, dot]
    norm_num
  rw [hm]
  show (if pBump.simulate_fp8 = true then simulate_fp8 [159/16, 31/8]
    else [159/16, 31/8]) = [10, 31/8]
  rw [if_pos (show pBump.simulate_fp8 = true from rfl)]
  simp [simulate_fp8, bump_q4, bump_q5]

/-- Norm of the first bump product. -/
theorem bump_norm0 :
    iterNorm pBump [3 / Real.sqrt 10, 1 / Real.sqrt 10] =
      Real.sqrt (7361/64) := by
  rw [iterNorm, bump_raw0, norm2_pair]
  norm_num

/-- The first bump product is not near-null. -/
theorem bump_nn0 :
    ¬ iterNorm pBump [3 / Real.sqrt 10, 1 / Real.sqrt 10] < 1/10^10 := by
  rw [bump_norm0]
  intro h
  nlinarith [sqrtBump0_bounds.1]

/-- Normalized first bump iterate. -/
theorem bump_x1 :
    xnewNormed pBump [3 / Real.sqrt 10, 1 / Real.sqrt 10] =
      [10 / Real.sqrt (7361/64), 31 / (8 * Real.sqrt (7361/64))] := by
  rw [xnewNormed, bump_norm0, bump_raw0]
  simp only [smulVec, List.map_cons, List.map_nil, List.cons.injEq,
    and_true]
  constructor
  · ring
  · ring

/-- Product of the quantized bump matrix with the normalized first iterate. -/
theorem bump_mv0 (s : ℝ) :
    matvec [[(39 : ℝ)/4, 1/2], [1/2, 9]] [10/s, 31/(8*s)] =
      [(1591/16)/s, (319/8)/s] := by
  simp only [matvec, List.map_cons, List.map_nil, List.cons.injEq, and_true]
  constructor
  · show dot [(39 : ℝ)/4, 1/2] [10/s, 31/(8*s)] = (1591/16)/s
    simp [dot]
    ring
  · show dot [(1 : ℝ)/2, 9] [10/s, 31/(8*s)] = (319/8)/s
    simp [dot]
    ring

/-- Rayleigh quotient of the first bump iteration. -/
theorem bump_eig0 :
    iterEigenvalue pBump [3 / Real.sqrt 10, 1 / Real.sqrt 10] =
      73529/7361 := by
  rw [iterEigenvalue, bump_x1, bump_acompute, bump_mv0]
  have h2 : Real.sqrt (7361/64) ^ 2 = 7361/64 :=
    Real.sq_sqrt (by norm_num)
  have e : dot [10 / Real.sqrt (7361/64), 31 / (8 * Real.sqrt (7361/64))]
      [(1591/16) / Real.sqrt (7361/64), (319/8) / Real.sqrt (7361/64)] =
      (73529/64) / Real.sqrt (7361/64) ^ 2 := by
    simp [dot]
    ring
  rw [e, h2]
  norm_num

/-- Relative error of the first bump iteration. -/
theorem bump_rel0 :
    iterRelErr pBump [3 / Real.sqrt 10, 1 / Real.sqrt 10] =
      13983/7338917 := by
  rw [iterRelErr, bump_eig0]
  show |(73529 : ℝ)/7361 - 997/100| / |(997 : ℝ)/100| = 13983/7338917
  rw [abs_of_pos (by norm_num : (0 : ℝ) < 73529/7361 - 997/100),
    abs_of_pos (by norm_num : (0 : ℝ) < (997 : ℝ)/100)]
  norm_num

/-- Residual norm recorded by the first bump iteration. -/
theorem bump_res0 : iterResidual pBump sBump0 = 1719/14722 := by
  have hx : sBump0.x = [3 / Real.sqrt 10, 1 / Real.sqrt 10] := rfl
  have hi : sBump0.iteration = 0 := rfl
  rw [iterResidual, hx, hi, bump_x1, bump_eig0, bump_acompute, convRes,
    if_pos rfl, bump_mv0]
  have hsub : subVec
      [(1591/16) / Real.sqrt (7361/64), (319/8) / Real.sqrt (7361/64)]
      (smulVec (73529/7361)
        [10 / Real.sqrt (7361/64), 31 / (8 * Real.sqrt (7361/64))]) =
      [(-53289/117776) / Real.sqrt (7361/64),
        (8595/7361) / Real.sqrt (7361/64)] := by
    simp only [subVec, smulVec, List.map_cons, List.map_nil,
      List.zipWith_cons_cons, List.zipWith_nil_right, List.cons.injEq,
      and_true]
    constructor
    · ring
    · ring
  rw [hsub, norm2_pair]
  have h2 : Real.sqrt (7361/64) ^ 2 = 7361/64 := Real.sq_sqrt (by norm_num)
  have e : (-53289/117776) / Real.sqrt (7361/64) *
        ((-53289/117776) / Real.sqrt (7361/64)) +
      (8595/7361) / Real.sqrt (7361/64) *
        ((8595/7361) / Real.sqrt (7361/64)) =
      ((53289/117776 : ℝ)^2 + (8595/7361)^2) / Real.sqrt (7361/64) ^ 2 := by
    ring
  rw [e, h2]
  rw [show ((53289/117776 : ℝ)^2 + (8595/7361)^2) / ((7361 : ℝ)/64) =
    ((1719 : ℝ)/14722)^2 by norm_num]
  exact Real.sqrt_sq (by norm_num)

/-- The state after the first bump iteration carries the normalized iterate. -/
theorem bump_s1x :
    sBump1.x = [10 / Real.sqrt (7361/64), 31 / (8 * Real.sqrt (7361/64))] := by
  show xnewNormed pBump sBump0.x = _
  rw [show sBump0.x = [3 / Real.sqrt 10, 1 / Real.sqrt 10] from rfl, bump_x1]

/-- The state after the first bump iteration carries the first eigenvalue. -/
theorem bump_s1eo : sBump1.eigenvalue_old = 73529/7361 := by
  show iterEigenvalue pBump sBump0.x = _
  rw [show sBump0.x = [3 / Real.sqrt 10, 1 / Real.sqrt 10] from rfl, bump_eig0]

/-- Quantized second bump iterate. -/
theorem bump_xc1 :
    xcompute pBump [10 / Real.sqrt (7361/64), 31 / (8 * Real.sqrt (7361/64))] =
      [7/8, 3/8] := by
  rw [xcompute, if_pos (show pBump.simulate_fp8 = true from rfl)]
  simp only [simulate_fp8, List.map_cons, List.map_nil]
  rw [bump_q10, bump_q11]

/-- Raw second product of the bump run. -/
theorem bump_raw1 :
    xnewRaw pBump [10 / Real.sqrt (7361/64), 31 / (8 * Real.sqrt (7361/64))] =
      [35/4, 15/4] := by
  unfold xnewRaw
  rw [bump_xc1, bump_acompute]
  have hm : matvec [[(39 : ℝ)/4, 1/2], [1/2, 9]] [7/8, 3/8] =
      [279/32, 61/16] := by
    simp [matvec, dot]
    norm_num
  rw [hm]
  show (if pBump.simulate_fp8 = true then simulate_fp8 [279/32, 61/16]
    else [279/32, 61/16]) = [35/4, 15/4]
  rw [if_pos (show pBump.simulate_fp8 = true from rfl)]
  simp only [simulate_fp8, List.map_cons, List.map_nil]
  rw [bump_q6, bump_q7]

/-- Norm of the second bump product. -/
theorem bump_norm1 :
    iterNorm pBump [10 / Real.sqrt (7361/64), 31 / (8 * Real.sqrt (7361/64))] =
      Real.sqrt (725/8) := by
  rw [iterNorm, bump_raw1, norm2_pair]
  norm_num

/-- The second bump product is not near-null. -/
theorem bump_nn1 :
    ¬ iterNorm pBump
      [10 / Real.sqrt (7361/64), 31 / (8 * Real.sqrt (7361/64))] < 1/10^10 := by
  rw [bump_norm1]
  intro h
  nlinarith [sqrtBump1_bounds.1]

/-- Normalized second bump iterate. -/
theorem bump_x2 :
    xnewNormed pBump
      [10 / Real.sqrt (7361/64), 31 / (8 * Real.sqrt (7361/64))] =
      [35 / (4 * Real.sqrt (725/8)), 15 / (4 * Real.sqrt (725/8))] := by
  rw [xnewNormed, bump_norm1, bump_raw1]
  simp only [smulVec, List.map_cons, List.map_nil, List.cons.injEq, and_true]
  constructor
  · ring
  · ring

/-- Product of the quantized bump matrix with the normalized second iterate. -/
theorem bump_mv1 (u : ℝ) :
    matvec [[(39 : ℝ)/4, 1/2], [1/2, 9]] [35/(4*u), 15/(4*u)] =
      [(1395/16)/u, (305/8)/u] := by
  simp only [matvec, List.map_cons, List.map_nil, List.cons.injEq, and_true]
  constructor
  · show dot [(39 : ℝ)/4, 1/2] [35/(4*u), 15/(4*u)] = (1395/16)/u
    simp [dot]
    ring
  · show dot [(1 : ℝ)/2, 9] [35/(4*u), 15/(4*u)] = (305/8)/u
    simp [dot]
    ring

/-- Rayleigh quotient of the second bump iteration. -/
theorem bump_eig1 :
    iterEigenvalue pBump
      [10 / Real.sqrt (7361/64), 31 / (8 * Real.sqrt (7361/64))] =
      2319/232 := by
  rw [iterEigenvalue, bump_x2, bump_acompute, bump_mv1]
  have h2 : Real.sqrt (725/8) ^ 2 = 725/8 := Real.sq_sqrt (by norm_num)
  have e : dot [35 / (4 * Real.sqrt (725/8)), 15 / (4 * Real.sqrt (725/8))]
      [(1395/16) / Real.sqrt (725/8), (305/8) / Real.sqrt (725/8)] =
      (57975/64) / Real.sqrt (725/8) ^ 2 := by
    simp [dot]
    ring
  rw [e, h2]
  norm_num

/-- Relative error of the second bump iteration: it is larger than the first
iteration's relative error. -/
theorem bump_rel1 :
    iterRelErr pBump
      [10 / Real.sqrt (7361/64), 31 / (8 * Real.sqrt (7361/64))] =
      149/57826 := by
  rw [iterRelErr, bump_eig1]
  show |(2319 : ℝ)/232 - 997/100| / |(997 : ℝ)/100| = 149/57826
  rw [abs_of_pos (by norm_num : (0 : ℝ) < 2319/232 - 997/100),
    abs_of_pos (by norm_num : (0 : ℝ) < (997 : ℝ)/100)]
  norm_num

/-- Residual norm of the second bump iteration. -/
theorem bump_res1_val :
    norm2 (subVec
      (matvec [[(39 : ℝ)/4, 1/2], [1/2, 9]]
        [35 / (4 * Real.sqrt (725/8)), 15 / (4 * Real.sqrt (725/8))])
      (smulVec (2319/232)
        [35 / (4 * Real.sqrt (725/8)), 15 / (4 * Real.sqrt (725/8))])) =
      17/232 := by
  rw [bump_mv1]
  have hsub : subVec
      [(1395/16) / Real.sqrt (725/8), (305/8) / Real.sqrt (725/8)]
      (smulVec (2319/232)
        [35 / (4 * Real.sqrt (725/8)), 15 / (4 * Real.sqrt (725/8))]) =
      [(-255/928) / Real.sqrt (725/8), (595/928) / Real.sqrt (725/8)] := by
    simp only [subVec, smulVec, List.map_cons, List.map_nil,
      List.zipWith_cons_cons, List.zipWith_nil_right, List.cons.injEq,
      and_true]
    constructor
    · ring
    · ring
  rw [hsub, norm2_pair]
  have h2 : Real.sqrt (725/8) ^ 2 = 725/8 := Real.sq_sqrt (by norm_num)
  have e : (-255/928) / Real.sqrt (725/8) * ((-255/928) / Real.sqrt (725/8)) +
      (595/928) / Real.sqrt (725/8) * ((595/928) / Real.sqrt (725/8)) =
      ((255/928 : ℝ)^2 + (595/928)^2) / Real.sqrt (725/8) ^ 2 := by
    ring
  rw [e, h2]
  rw [show ((255/928 : ℝ)^2 + (595/928)^2) / ((725 : ℝ)/8) =
    ((17 : ℝ)/232)^2 by norm_num]
  exact Real.sqrt_sq (by norm_num)

/-- The dual convergence criterion holds at the second bump iteration. -/
theorem bump_conv1 : iterConv pBump sBump1 := by
  rw [iterConv, bump_s1x, bump_x2, bump_eig1, bump_s1eo,
    show sBump1.iteration = 1 from rfl, convRes,
    if_neg (by norm_num : (1 : ℕ) ≠ 0)]
  show (check_convergence (acompute pBump)
    [35 / (4 * Real.sqrt (725/8)), 15 / (4 * Real.sqrt (725/8))]
    (2319/232) (73529/7361) pBump.precision_name).1
  rw [bump_acompute]
  simp only [check_convergence]
  have htol1 : (PRECISION_TOLERANCES pBump.precision_name).eigenvalue_tol =
      5/100 := rfl
  have htol2 : (PRECISION_TOLERANCES pBump.precision_name).residual_tol =
      1/10 := rfl
  rw [htol1, htol2]
  have habs1 : |(73529 : ℝ)/7361| = 73529/7361 := abs_of_pos (by norm_num)
  constructor
  · rw [if_pos (show (1 : ℝ)/10^14 < |(73529 : ℝ)/7361| by
      rw [habs1]; norm_num)]
    rw [habs1, abs_of_pos (by norm_num : (0 : ℝ) < 2319/232 - 73529/7361)]
    norm_num
  · rw [bump_res1_val]
    norm_num

/-- The first bump pass continues (no stop condition holds). -/
theorem bump_step0 : segmentStep pBump sBump0 = (sBump1, false) := by
  have hx : sBump0.x = [3 / Real.sqrt 10, 1 / Real.sqrt 10] := rfl
  have hnn : ¬ iterNorm pBump sBump0.x < 1/10^10 := by
    rw [hx]
    exact bump_nn0
  have hnc : ¬ iterConv pBump sBump0 := by
    rw [iterConv, show sBump0.iteration = 0 from rfl, convRes, if_pos rfl]
    exact not_false
  have hrel : ¬ iterRelErr pBump sBump0.x ≤ pBump.target_error := by
    rw [hx, bump_rel0]
    show ¬ (13983 : ℝ)/7338917 ≤ (1 : ℝ)/10^10
    norm_num
  have hstag : ¬ pBump.max_stagnant ≤ stagnantUpdate pBump sBump0 := by
    rw [stagnantUpdate,
      if_neg (by rw [show sBump0.iteration = 0 from rfl]; exact lt_irrefl 0)]
    show ¬ (10 : ℕ) ≤ 0
    omega
  unfold segmentStep
  rw [if_neg hnn, if_neg hnc, if_neg hrel, if_neg hstag]
  rfl

/-- The second bump pass stops via the dual convergence criterion. -/
theorem bump_step1 :
    segmentStep pBump sBump1 =
      ({ postIterState pBump sBump1 with converged := true }, true) := by
  have hnn : ¬ iterNorm pBump sBump1.x < 1/10^10 := by
    rw [bump_s1x]
    exact bump_nn1
  unfold segmentStep
  rw [if_neg hnn, if_pos bump_conv1]

/-- The bump segment on budget 2 runs both iterations and ends converged. -/
theorem bump_seg :
    runSegment pBump 2 sBump0 =
      { postIterState pBump sBump1 with converged := true } := by
  simp [runSegment, bump_step0, bump_step1]

/-- Trace of the finished bump segment: exactly the two records. -/
theorem bump_fin_trace :
    (runSegment pBump (2 - 0) sBump0).trace =
      [iterRecord pBump sBump0, iterRecord pBump sBump1] := by
  rw [show (2 : ℕ) - 0 = 2 from rfl, bump_seg]
  show (sBump0.trace ++ [iterRecord pBump sBump0]) ++ [iterRecord pBump sBump1]
    = [iterRecord pBump sBump0, iterRecord pBump sBump1]
  rw [show sBump0.trace = [] from rfl]
  rfl

/-- The finished bump segment reports converged. -/
theorem bump_fin_conv : (runSegment pBump (2 - 0) sBump0).converged = true := by
  rw [show (2 : ℕ) - 0 = 2 from rfl, bump_seg]

/-- Relative errors of the two bump records: the second (and last) one is
strictly larger than the first. -/
theorem bump_rec_errors :
    (iterRecord pBump sBump0).relative_error = 13983/7338917 ∧
      (iterRecord pBump sBump1).relative_error = 149/57826 := by
  constructor
  · show iterRelErr pBump sBump0.x = _
    rw [show sBump0.x = [3 / Real.sqrt 10, 1 / Real.sqrt 10] from rfl,
      bump_rel0]
  · show iterRelErr pBump sBump1.x = _
    rw [bump_s1x, bump_rel1]

/-- The tier loop returns its accumulator when the global budget is spent. -/
theorem runLoop_stop (M : CascadingPowerMethod) (te : ℝ) (mi : ℕ)
    (dts : ℕ → ℝ) (e : CascadeEntry) (rest : List CascadeEntry)
    (acc : LoopAcc) (h : mi ≤ acc.total_iterations) :
    runLoop M te mi dts (e :: rest) acc = acc := by
  simp only [runLoop]
  rw [if_pos h]

/-- The tier loop recurses to the next tier when the segment was nonempty,
did not reach the target, and budget remains. -/
theorem runLoop_cons_continue (M : CascadingPowerMethod) (te : ℝ) (mi : ℕ)
    (dts : ℕ → ℝ) (e : CascadeEntry) (rest : List CascadeEntry)
    (acc : LoopAcc) (h1 : ¬ mi ≤ acc.total_iterations)
    (h2 : (runSegment (segParamsOf M te dts e acc.total_iterations)
      (mi - acc.total_iterations)
      (initSeg acc.x acc.time_offset)).trace.isEmpty = false)
    (h3 : ¬ ((runSegment (segParamsOf M te dts e acc.total_iterations)
        (mi - acc.total_iterations) (initSeg acc.x acc.time_offset)).converged ∧
      ((runSegment (segParamsOf M te dts e acc.total_iterations)
        (mi - acc.total_iterations)
        (initSeg acc.x acc.time_offset)).trace.getLast!).relative_error ≤ te)) :
    runLoop M te mi dts (e :: rest) acc =
      runLoop M te mi dts rest
        (accAppend acc
          (segInfoOf e (segParamsOf M te dts e acc.total_iterations)
            acc.total_iterations
            (runSegment (segParamsOf M te dts e acc.total_iterations)
              (mi - acc.total_iterations) (initSeg acc.x acc.time_offset)))
          (runSegment (segParamsOf M te dts e acc.total_iterations)
            (mi - acc.total_iterations) (initSeg acc.x acc.time_offset))) := by
  simp only [runLoop]
  rw [if_neg h1, if_neg (by rw [h2]; exact Bool.false_ne_true), if_neg h3]

/-- Full evaluation of the bump run's tier loop: the FP8 segment consumes
the whole budget of 2 iterations and the loop then stops. -/
theorem bump_loop_eval :
    runLoop MBump (1/10^10) 2 (fun _ => 0) PRECISION_CASCADE
      { full_trace := [], precision_segments := [], total_iterations := 0,
        x := [3 / Real.sqrt 10, 1 / Real.sqrt 10], time_offset := 0 } =
      accAppend
        { full_trace := [], precision_segments := [], total_iterations := 0,
          x := [3 / Real.sqrt 10, 1 / Real.sqrt 10], time_offset := 0 }
        (segInfoOf
          { name := "FP8", dtype := Dtype.float32, simulate_fp8 := true,
            threshold := 5/100, max_stagnant := 10 }
          pBump 0 (runSegment pBump (2 - 0) sBump0))
        (runSegment pBump (2 - 0) sBump0) := by
  rw [PRECISION_CASCADE]
  rw [runLoop_cons_continue]
  · rw [runLoop_stop]
    · rfl
    · show (2 : ℕ) ≤ 0 + (runSegment pBump (2 - 0) sBump0).trace.length
      rw [bump_fin_trace]
      norm_num
  · norm_num
  · show (runSegment pBump (2 - 0) sBump0).trace.isEmpty = false
    rw [bump_fin_trace]
    rfl
  · show ¬ ((runSegment pBump (2 - 0) sBump0).converged ∧
      ((runSegment pBump (2 - 0) sBump0).trace.getLast!).relative_error ≤
        1/10^10)
    rintro ⟨-, hle⟩
    rw [bump_fin_trace] at hle
    have hlast : ([iterRecord pBump sBump0,
        iterRecord pBump sBump1]).getLast! = iterRecord pBump sBump1 := rfl
    rw [hlast, bump_rec_errors.2] at hle
    norm_num at hle

/-- Trace of the complete bump run. -/
theorem bump_run_trace :
    (MBump.run [3, 1] (1/10^10) 2 (fun _ => 0)).trace =
      [iterRecord pBump sBump0, iterRecord pBump sBump1] := by
  have hx0 : smulVec (1 / norm2 [3, 1]) ([3, 1] : Vec) =
      [3 / Real.sqrt 10, 1 / Real.sqrt 10] := by
    have hn : norm2 [(3 : ℝ), 1] = Real.sqrt 10 := by
      rw [norm2_pair]
      norm_num
    rw [hn]
    simp only [smulVec, List.map_cons, List.map_nil, List.cons.injEq, and_true]
    constructor
    · ring
    · ring
  show (runLoop MBump (1/10^10) 2 (fun _ => 0) PRECISION_CASCADE
      { full_trace := [], precision_segments := [], total_iterations := 0,
        x := smulVec (1 / norm2 [3, 1]) [3, 1], time_offset := 0 }).full_trace
    = [iterRecord pBump sBump0, iterRecord pBump sBump1]
  rw [hx0, bump_loop_eval]
  show ([] : List IterationRecord) ++
    (runSegment pBump (2 - 0) sBump0).trace = _
  rw [bump_fin_trace, List.nil_append]

/-- Total iteration count of the complete bump run. -/
theorem bump_run_total :
    (MBump.run [3, 1] (1/10^10) 2 (fun _ => 0)).summary.total_iterations
      = 2 := by
  have hx0 : smulVec (1 / norm2 [3, 1]) ([3, 1] : Vec) =
      [3 / Real.sqrt 10, 1 / Real.sqrt 10] := by
    have hn : norm2 [(3 : ℝ), 1] = Real.sqrt 10 := by
      rw [norm2_pair]
      norm_num
    rw [hn]
    simp only [smulVec, List.map_cons, List.map_nil, List.cons.injEq, and_true]
    constructor
    · ring
    · ring
  show (runLoop MBump (1/10^10) 2 (fun _ => 0) PRECISION_CASCADE
      { full_trace := [], precision_segments := [], total_iterations := 0,
        x := smulVec (1 / norm2 [3, 1]) [3, 1],
        time_offset := 0 }).total_iterations = 2
  rw [hx0, bump_loop_eval]
  show 0 + (runSegment pBump (2 - 0) sBump0).trace.length = 2
  rw [bump_fin_trace]
  norm_num

/-- A nonempty list contains its `getLastD` or falls back to the default. -/
theorem getLastD_mem_or {α : Type} (l : List α) :
    ∀ a : α, l.getLastD a = a ∨ l.getLastD a ∈ l := by
  induction l with
  | nil => intro a; exact Or.inl rfl
  | cons b t ih =>
      intro a
      rw [List.getLastD_cons]
      rcases ih b with h | h
      · right
        rw [h]
        exact List.mem_cons_self b t
      · right
        exact List.mem_cons_of_mem b h

/-- `getLast!` of a nonempty list is one of its elements. -/
theorem getLast!_mem {α : Type} [Inhabited α] (l : List α) (h : l ≠ []) :
    l.getLast! ∈ l := by
  match l with
  | [] => exact absurd rfl h
  | a :: t =>
      rw [List.getLast!_cons]
      rcases getLastD_mem_or t a with h' | h'
      · rw [h']
        exact List.mem_cons_self a t
      · exact List.mem_cons_of_mem a h'

/-- C4 counterexample: a budget-exhausted cascade run (2 iterations on a
2x2 matrix, no tier reaching the 1e-10 target) that completes normally with
converged=false, but whose reported final_error `149/57826` is the LAST
recorded relative error and not the best (smallest) one, `13983/7338917`,
achieved at the first iteration.  This refutes the claim that the final
TraceDocument reports the best error achieved. -/
theorem claim_C4_counterexample :
    (MBump.run [3, 1] (1/10^10) 2 (fun _ => 0)).trace.map
        (fun r => r.relative_error) = [13983/7338917, 149/57826] ∧
      (MBump.run [3, 1] (1/10^10) 2
        (fun _ => 0)).metadata.final_error = 149/57826 ∧
      (13983/7338917 : ℝ) < 149/57826 ∧
      ¬ (MBump.run [3, 1] (1/10^10) 2 (fun _ => 0)).metadata.converged ∧
      (MBump.run [3, 1] (1/10^10) 2
        (fun _ => 0)).summary.total_iterations = 2 ∧
      (MBump.run [3, 1] (1/10^10) 2
        (fun _ => 0)).metadata.max_iterations = 2 := by
  have htr := bump_run_trace
  have herr := bump_rec_errors
  have hfin : (MBump.run [3, 1] (1/10^10) 2
      (fun _ => 0)).metadata.final_error = 149/57826 := by
    show ((MBump.run [3, 1] (1/10^10) 2
      (fun _ => 0)).trace.getLast!).relative_error = 149/57826
    rw [htr]
    rw [show ([iterRecord pBump sBump0, iterRecord pBump sBump1]).getLast! =
      iterRecord pBump sBump1 from rfl]
    exact herr.2
  refine ⟨?_, hfin, by norm_num, ?_, bump_run_total, rfl⟩
  · rw [htr]
    simp only [List.map_cons, List.map_nil]
    rw [herr.1, herr.2]
  · rintro ⟨-, hle⟩
    have hle' : (MBump.run [3, 1] (1/10^10) 2
        (fun _ => 0)).metadata.final_error ≤ 1/10^10 := hle
    rw [hfin] at hle'
    norm_num at hle'

/-- C4 (amended): when the global iteration budget is exhausted before any
tier reaches the target error, the run still completes normally (the
embedding is a total function) and the final TraceDocument reports the
relative error of the LAST recorded iteration as final_error, with
converged=false whenever every recorded error exceeds the target. -/
theorem claim_C4 (M : CascadingPowerMethod) (x0 : Vec) (te : ℝ) (mi : ℕ)
    (dts : ℕ → ℝ) (h : (M.run x0 te mi dts).trace ≠ []) :
    (M.run x0 te mi dts).metadata.final_error =
        ((M.run x0 te mi dts).trace.getLast!).relative_error ∧
      ((∀ r ∈ (M.run x0 te mi dts).trace, te < r.relative_error) →
        ¬ (M.run x0 te mi dts).metadata.converged) := by
  refine ⟨rfl, ?_⟩
  rintro hall ⟨hne, hle⟩
  have hmem : ((M.run x0 te mi dts).trace.getLast!) ∈
      (M.run x0 te mi dts).trace := getLast!_mem _ h
  have hgt := hall _ hmem
  have hle' : ((M.run x0 te mi dts).trace.getLast!).relative_error ≤ te := hle
  linarith

/-- C4 witness: the amended statement applied to the concrete bump run. -/
theorem claim_C4_witness :
    (MBump.run [3, 1] (1/10^10) 2 (fun _ => 0)).metadata.final_error =
        ((MBump.run [3, 1] (1/10^10) 2
          (fun _ => 0)).trace.getLast!).relative_error ∧
      ¬ (MBump.run [3, 1] (1/10^10) 2 (fun _ => 0)).metadata.converged := by
  have h := claim_C4 MBump [3, 1] (1/10^10) 2 (fun _ => 0)
    (by rw [bump_run_trace]; simp)
  refine ⟨h.1, h.2 ?_⟩
  intro r hr
  rw [bump_run_trace] at hr
  rcases List.mem_cons.mp hr with rfl | hr
  · rw [bump_rec_errors.1]
    norm_num
  · rcases List.mem_singleton.mp hr with rfl
    rw [bump_rec_errors.2]
    norm_num

end Theorems
